import Mathlib

/-!
Verification development for the multi-frame DINO augmentation pipeline and
distillation loss of `main_dino.py` (classes `DataAugmentationDINO`,
`Global_transfo`, `DINOLoss`).  Images are modelled as total pixel functions
over natural-number coordinates with 8-bit RGB channel values; tensors carry
rational channel values.  Randomness is passed explicitly: every value the
Python code obtains from `random` / `torch` sampling is a field of an explicit
draw record, so each theorem quantifies over all possible draws.
-/

/-- RGB pixel of a decoded PIL image: three 8-bit channel values. -/
structure Pix where
  r : Nat
  g : Nat
  b : Nat
deriving DecidableEq

/-- Decoded PIL image: height, width and a total pixel accessor (reads outside
the geometric bounds are only ever produced by `pilCrop`, which fills them with
black, as PIL does). -/
structure Img where
  h : Nat
  w : Nat
  pix : Nat → Nat → Pix

/-- Image tensor after `ToTensor`/`Normalize`: rational channel values. -/
structure QPix where
  r : ℚ
  g : ℚ
  b : ℚ
deriving DecidableEq

/-- Tensor-valued image (one 3-channel slice of the final view tensor). -/
structure TImg where
  h : Nat
  w : Nat
  pix : Nat → Nat → QPix

/-- The all-black pixel. -/
def blackPix : Pix := ⟨0, 0, 0⟩

/-- Default image used to totalise list indexing. -/
def dfltImg : Img := ⟨0, 0, fun _ _ => blackPix⟩

/-- Default tensor slice used to totalise list indexing. -/
def dfltT : TImg := ⟨0, 0, fun _ _ => ⟨0, 0, 0⟩⟩

/-- Modelled from the spec: PIL `Image.crop` (external library, called by the
`crop` helper inside `DataAugmentationDINO.__call__`): returns the box region
`(left, top, right, bottom)`; parts of the box outside the source image are
filled with black. -/
def pilCrop (im : Img) (left top right bottom : Nat) : Img :=
  ⟨bottom - top, right - left, fun r c =>
    if top + r < im.h ∧ left + c < im.w ∧ r < bottom - top ∧ c < right - left then
      im.pix (top + r) (left + c)
    else blackPix⟩

/-- Python `range(0, stop, step)` for a positive step. -/
def pyRange0 (stop step : Nat) : List Nat :=
  (List.range ((stop + step - 1) / step)).map (fun k => k * step)

/-- The `crop` helper of `DataAugmentationDINO.__call__`: walk the composite
image in `height`-row bands (outer loop) and `width`-column bands (inner loop)
and collect `im.crop((j, i, j + width, i + height))` for each grid cell. -/
def cropTiles (im : Img) (height width : Nat) : List Img :=
  (pyRange0 im.h height).flatMap (fun i =>
    (pyRange0 im.w width).map (fun j => pilCrop im j i (j + width) (i + height)))

/-- Sampled crop rectangle `(i, j, h, w)` = (top, left, height, width), as
returned by `transforms.RandomResizedCrop.get_params`. -/
structure CropRect where
  top : Nat
  left : Nat
  ch : Nat
  cw : Nat
deriving DecidableEq

/-- Raw random draw feeding the crop-rectangle sampler. -/
structure CropDraw where
  dTop : Nat
  dLeft : Nat
  dH : Nat
  dW : Nat
deriving DecidableEq

/-- Modelled from the spec: `transforms.RandomResizedCrop.get_params` (external
torchvision library): samples ONE crop rectangle using the reference image's
dimensions (the source passes `images[0]`), with area driven by the scale range
and a near-square aspect window; the scale range only shapes the distribution
of the draw, which is abstracted into `CropDraw`, and the returned rectangle
always lies inside the reference image. -/
def getCropParams (ref : Img) (d : CropDraw) : CropRect :=
  let ch := min (max 1 d.dH) ref.h
  let cw := min (max 1 d.dW) ref.w
  ⟨min d.dTop (ref.h - ch), min d.dLeft (ref.w - cw), ch, cw⟩

/-- `torchvision.transforms.functional.crop(img, i, j, h, w)`: the rectangle of
height `h` and width `w` whose top-left corner is `(i, j)`. -/
def tfCrop (rect : CropRect) (im : Img) : Img :=
  ⟨rect.ch, rect.cw, fun r c => im.pix (rect.top + r) (rect.left + c)⟩

/-- Modelled from the spec: PIL `Image.resize((s, s))` (external library):
produces an `s`×`s` image interpolated from the input; the interpolation
kernel is modelled as index-rescaled sampling. -/
def resizeSq (s : Nat) (im : Img) : Img :=
  ⟨s, s, fun r c => im.pix (r * im.h / s) (c * im.w / s)⟩

/-- The per-branch crop loop `for x in range(len(images)): images[x] =
TF.crop(images[x], i, j, h, w).resize((s, s))`: one fixed rectangle applied to
every frame, then every cropped frame resized to the branch target size. -/
def cropStage (s : Nat) (rect : CropRect) (ims : List Img) : List Img :=
  ims.map (fun im => resizeSq s (tfCrop rect im))

/-- Clamp an integer channel value into the 8-bit range `[0, 255]`. -/
def clampChan (x : Int) : Nat := (max 0 (min 255 x)).toNat

/-- `ImageChops.subtract(a, b, scale=1.0, offset=2)` (PIL, modelled from the
spec formula): per channel, `clamp(a - b + 2, 0, 255)`. -/
def subtractOffset2 (a b : Img) : Img :=
  ⟨a.h, a.w, fun r c =>
    ⟨clampChan (((a.pix r c).r : Int) - ((b.pix r c).r : Int) + 2),
     clampChan (((a.pix r c).g : Int) - ((b.pix r c).g : Int) + 2),
     clampChan (((a.pix r c).b : Int) - ((b.pix r c).b : Int) + 2)⟩⟩

/-- The difference loop `for i in range(len(images)-1):
image_diff.append(ImageChops.subtract(images[i], images[i+1], scale=1.0,
offset=2))`, run immediately after the crop/resize loop. -/
def makeDiffs : List Img → List Img
  | [] => []
  | [_] => []
  | a :: b :: rest => subtractOffset2 a b :: makeDiffs (b :: rest)

/-- `TF.hflip`: mirror the image horizontally. -/
def hflipImg (im : Img) : Img := ⟨im.h, im.w, fun r c => im.pix r (im.w - 1 - c)⟩

/-- `TF.vflip`: mirror the image vertically. -/
def vflipImg (im : Img) : Img := ⟨im.h, im.w, fun r c => im.pix (im.h - 1 - r) c⟩

/-- Uniform draw in `[lo, hi]` parameterised by `u ∈ [0, 1]`. -/
def uniformIn (lo hi u : ℚ) : ℚ := lo + u * (hi - lo)

/-- The `brightness` argument of `transforms.ColorJitter(brightness=0.4, ...)`
constructed inside each branch of `Global_transfo`. -/
def jitterBrightnessArg : ℚ := 4/10

/-- The `contrast` argument of the branch `ColorJitter` (0.4). -/
def jitterContrastArg : ℚ := 4/10

/-- The `saturation` argument of the branch `ColorJitter` (0.2). -/
def jitterSaturationArg : ℚ := 2/10

/-- The `hue` argument of the branch `ColorJitter` (0.1). -/
def jitterHueArg : ℚ := 1/10

/-- Modelled from the spec: the sampling interval torchvision's `ColorJitter`
derives from a brightness/contrast/saturation argument `v`:
`[max(0, 1 - v), 1 + v]`. -/
def factorInterval (v : ℚ) : ℚ × ℚ := (max 0 (1 - v), 1 + v)

/-- Modelled from the spec: the sampling interval derived from a hue argument
`v`: `[-v, v]`. -/
def hueInterval (v : ℚ) : ℚ × ℚ := (-v, v)

/-- Raw random draws feeding `ColorJitter.get_params`: the drawn operation
order (`torch.randperm(4)`) and one unit draw per factor. -/
structure JitterDraw where
  perm : List Nat
  ub : ℚ
  uc : ℚ
  us : ℚ
  uh : ℚ

/-- Result of `ColorJitter.get_params`: `fn_idx` (the operation order) and the
four factors. -/
structure JitterParams where
  fnIdx : List Nat
  brightness : ℚ
  contrast : ℚ
  saturation : ℚ
  hue : ℚ

/-- Modelled from the spec: `transforms.ColorJitter.get_params` (external
torchvision library) applied to the branch jitter arguments (0.4, 0.4, 0.2,
0.1): one permutation of the four operations and one uniformly drawn factor
per operation. -/
def colorJitterGetParams (d : JitterDraw) : JitterParams :=
  ⟨d.perm,
   uniformIn (factorInterval jitterBrightnessArg).1 (factorInterval jitterBrightnessArg).2 d.ub,
   uniformIn (factorInterval jitterContrastArg).1 (factorInterval jitterContrastArg).2 d.uc,
   uniformIn (factorInterval jitterSaturationArg).1 (factorInterval jitterSaturationArg).2 d.us,
   uniformIn (hueInterval jitterHueArg).1 (hueInterval jitterHueArg).2 d.uh⟩

/-- Round a rational channel value and clamp it into `[0, 255]`. -/
def qToChan (q : ℚ) : Nat := clampChan ⌊q + 1/2⌋

/-- Map one rational-valued function over the three channels of a pixel. -/
def mapPix (f : ℚ → ℚ) (p : Pix) : Pix :=
  ⟨qToChan (f (p.r : ℚ)), qToChan (f (p.g : ℚ)), qToChan (f (p.b : ℚ))⟩

/-- Modelled from the spec: `TF.adjust_brightness` (external torchvision
library): scale every channel by the factor. -/
def adjBrightness (f : ℚ) (im : Img) : Img :=
  ⟨im.h, im.w, fun r c => mapPix (fun v => f * v) (im.pix r c)⟩

/-- Modelled from the spec: `TF.adjust_contrast` (external torchvision
library); the pixel arithmetic is modelled as blending toward mid-gray. -/
def adjContrast (f : ℚ) (im : Img) : Img :=
  ⟨im.h, im.w, fun r c => mapPix (fun v => 128 + f * (v - 128)) (im.pix r c)⟩

/-- Modelled from the spec: `TF.adjust_saturation` (external torchvision
library); modelled as blending each channel toward the pixel's gray level. -/
def adjSaturation (f : ℚ) (im : Img) : Img :=
  ⟨im.h, im.w, fun r c =>
    let p := im.pix r c
    let gray : ℚ := ((p.r : ℚ) + (p.g : ℚ) + (p.b : ℚ)) / 3
    ⟨qToChan (gray + f * ((p.r : ℚ) - gray)),
     qToChan (gray + f * ((p.g : ℚ) - gray)),
     qToChan (gray + f * ((p.b : ℚ) - gray))⟩⟩

/-- Modelled from the spec: `TF.adjust_hue` (external torchvision library);
the hue rotation is modelled as a uniform channel offset of `f * 255`. -/
def adjHue (f : ℚ) (im : Img) : Img :=
  ⟨im.h, im.w, fun r c => mapPix (fun v => v + f * 255) (im.pix r c)⟩

/-- The inner `for fn_id in fn_idx` loop of every branch: apply the four
jitter operations to one frame in the sampled order with the sampled
factors. -/
def applyColorJitter (p : JitterParams) (im : Img) : Img :=
  p.fnIdx.foldl (fun img fnId =>
    if fnId = 0 then adjBrightness p.brightness img
    else if fnId = 1 then adjContrast p.contrast img
    else if fnId = 2 then adjSaturation p.saturation img
    else if fnId = 3 then adjHue p.hue img
    else img) im

/-- Modelled from the spec: the blur kernel inside `utils.GaussianBlur`
(repository file `utils.py`, not under src); the kernel is modelled as the
average of a pixel and its four axis neighbours (the internally drawn sigma is
abstracted away, since no claim depends on it). -/
def gaussianBlurImg (im : Img) : Img :=
  ⟨im.h, im.w, fun r c =>
    let q := fun (p : Pix) (f : Pix → Nat) => ((f p : Int))
    let s := fun (f : Pix → Nat) =>
      q (im.pix r c) f + q (im.pix (r + 1) c) f + q (im.pix (r - 1) c) f +
      q (im.pix r (c + 1)) f + q (im.pix r (c - 1)) f
    ⟨clampChan (s Pix.r / 5), clampChan (s Pix.g / 5), clampChan (s Pix.b / 5)⟩⟩

/-- Modelled from the spec: `utils.GaussianBlur(do_it, p=p)` applied to the
frame list (repository file `utils.py`, not under src): blurs every frame when
its apply flag `do_it` is true, otherwise returns the frames unchanged. -/
def gaussianBlurList (doIt : Bool) (ims : List Img) : List Img :=
  if doIt then ims.map gaussianBlurImg else ims

/-- Modelled from the spec: the solarization of one frame inside
`utils.Solarization` (repository file `utils.py`, not under src): invert every
channel value at or above the fixed threshold of half the pixel range. -/
def solarizeImg (im : Img) : Img :=
  ⟨im.h, im.w, fun r c =>
    let p := im.pix r c
    let f := fun v => if 128 ≤ v then 255 - v else v
    ⟨f p.r, f p.g, f p.b⟩⟩

/-- Modelled from the spec: `utils.Solarization(do_it)` applied to the frame
list (repository file `utils.py`, not under src): solarizes every frame when
its apply flag `do_it` is true, otherwise returns the frames unchanged. -/
def solarizeList (doIt : Bool) (ims : List Img) : List Img :=
  if doIt then ims.map solarizeImg else ims

/-- The blur gate of `Global_transfo.transfo1`: `do_it = False; p =
random.random(); if (p >= 0.5): do_it = True`. -/
def transfo1BlurDoIt (p : ℚ) : Bool := decide ((1 : ℚ)/2 ≤ p)

/-- The blur gate of `Global_transfo.transfo2`: `do_it` is true iff the draw
is at least 0.1. -/
def transfo2BlurDoIt (p : ℚ) : Bool := decide ((1 : ℚ)/10 ≤ p)

/-- The solarization gate of `Global_transfo.transfo2`: `do_it` is true iff
the (separate) draw is at least 0.2. -/
def transfo2SolarDoIt (p : ℚ) : Bool := decide ((2 : ℚ)/10 ≤ p)

/-- The blur gate of `Global_transfo.local_transfo`: `do_it` is true iff the
draw is at least 0.5. -/
def localBlurDoIt (p : ℚ) : Bool := decide ((1 : ℚ)/2 ≤ p)

/-- `transforms.ToTensor()` on one RGB frame: channel values scaled to
`[0, 1]` by division by 255. -/
def toTensorImg (im : Img) : TImg :=
  ⟨im.h, im.w, fun r c =>
    ⟨((im.pix r c).r : ℚ) / 255, ((im.pix r c).g : ℚ) / 255, ((im.pix r c).b : ℚ) / 255⟩⟩

/-- `transforms.Normalize((0.485, 0.456, 0.406), (0.229, 0.224, 0.225))`
applied to one frame tensor. -/
def normalizeImg (t : TImg) : TImg :=
  ⟨t.h, t.w, fun r c =>
    ⟨((t.pix r c).r - 485/1000) / (229/1000),
     ((t.pix r c).g - 456/1000) / (224/1000),
     ((t.pix r c).b - 406/1000) / (225/1000)⟩⟩

/-- `transforms.Normalize((0, 0, 0), (0.229, 0.224, 0.225))` applied to one
difference tensor: zero mean, the same per-channel std as the frames. -/
def normalizeDiffT (t : TImg) : TImg :=
  ⟨t.h, t.w, fun r c =>
    ⟨(t.pix r c).r / (229/1000),
     (t.pix r c).g / (224/1000),
     (t.pix r c).b / (225/1000)⟩⟩

/-- The concatenation loop at the end of every branch:
`torchTensor = images[0][0:, None, :]` followed, for `i in
range(1, len(images))`, by prepending `images[i]` and then `image_diff[i-1]`
along dim 1.  The returned list records, in order, the dim-1 slices of the
final `(3, 2F-1, H, W)` tensor; each slice carries its own 3 RGB channels. -/
def assembleView (frames diffs : List TImg) : List TImg :=
  match frames with
  | [] => []
  | f0 :: fs => (fs.zip diffs).foldl (fun acc p => p.2 :: p.1 :: acc) [f0]

/-- One branch output ("view"): the ordered dim-1 slices of the concatenated
tensor. -/
structure View where
  slices : List TImg

/-- Total number of channel entries of a view: 3 RGB channels per slice. -/
def View.channelCount (v : View) : Nat := 3 * v.slices.length

/-- All randomness one branch invocation draws, in program order: the crop
rectangle draw, the two flip draws (`random.random()`), the jitter draws, the
blur-gate draw and the solarization-gate draw (the latter is read only by
`transfo2`). -/
structure BranchRand where
  crop : CropDraw
  hflipU : ℚ
  vflipU : ℚ
  jitter : JitterDraw
  blurU : ℚ
  solarU : ℚ

/-- `Global_transfo.transfo1`: shallow-copy the frame list, sample one crop
rectangle from `images[0]`, crop+resize every frame to 224×224, compute the
consecutive differences, then flips, colour jitter and the 0.5-gated blur,
then convert frames and differences to normalized tensors and concatenate. -/
def transfo1 (r : BranchRand) (inpImages : List Img) : View :=
  let images := inpImages
  let rect := getCropParams (images.headD dfltImg) r.crop
  let images := cropStage 224 rect images
  let imageDiff := makeDiffs images
  let images := if r.hflipU > 1/2 then images.map hflipImg else images
  let images := if r.vflipU > 1/2 then images.map vflipImg else images
  let jp := colorJitterGetParams r.jitter
  let images := images.map (applyColorJitter jp)
  let images := gaussianBlurList (transfo1BlurDoIt r.blurU) images
  let frames := images.map (fun im => normalizeImg (toTensorImg im))
  let diffsN := imageDiff.map (fun im => normalizeDiffT (toTensorImg im))
  ⟨assembleView frames diffsN⟩

/-- `Global_transfo.transfo2`: as `transfo1` but with the 0.1-gated blur
followed by the 0.2-gated solarization. -/
def transfo2 (r : BranchRand) (inpImages : List Img) : View :=
  let images := inpImages
  let rect := getCropParams (images.headD dfltImg) r.crop
  let images := cropStage 224 rect images
  let imageDiff := makeDiffs images
  let images := if r.hflipU > 1/2 then images.map hflipImg else images
  let images := if r.vflipU > 1/2 then images.map vflipImg else images
  let jp := colorJitterGetParams r.jitter
  let images := images.map (applyColorJitter jp)
  let images := gaussianBlurList (transfo2BlurDoIt r.blurU) images
  let images := solarizeList (transfo2SolarDoIt r.solarU) images
  let frames := images.map (fun im => normalizeImg (toTensorImg im))
  let diffsN := imageDiff.map (fun im => normalizeDiffT (toTensorImg im))
  ⟨assembleView frames diffsN⟩

/-- `Global_transfo.local_transfo`: as `transfo1` but resizing to 96×96 (the
blur gate threshold is likewise 0.5 and there is no solarization). -/
def localTransfo (r : BranchRand) (inpImages : List Img) : View :=
  let images := inpImages
  let rect := getCropParams (images.headD dfltImg) r.crop
  let images := cropStage 96 rect images
  let imageDiff := makeDiffs images
  let images := if r.hflipU > 1/2 then images.map hflipImg else images
  let images := if r.vflipU > 1/2 then images.map vflipImg else images
  let jp := colorJitterGetParams r.jitter
  let images := images.map (applyColorJitter jp)
  let images := gaussianBlurList (localBlurDoIt r.blurU) images
  let frames := images.map (fun im => normalizeImg (toTensorImg im))
  let diffsN := imageDiff.map (fun im => normalizeDiffT (toTensorImg im))
  ⟨assembleView frames diffsN⟩

/-- All randomness one `DataAugmentationDINO.__call__` invocation draws: one
`BranchRand` for each global branch and one per local iteration. -/
structure CallRand where
  g1 : BranchRand
  g2 : BranchRand
  loc : Nat → BranchRand

/-- Result of `DataAugmentationDINO.__call__`: whether the size check printed
"ERROR!" and the produced list of views. -/
structure CallResult where
  errored : Bool
  crops : List View

/-- `DataAugmentationDINO.__call__`: flag a size mismatch (`image.size !=
(640, 1920)`, PIL size being (width, height)) but continue, split the
composite into 480×640 tiles, then produce `transfo1`, `transfo2` and
`local_crops_number` local views from the same tile list. -/
def dinoCall (n : Nat) (r : CallRand) (image : Img) : CallResult :=
  let errored := !(decide (image.w = 640) && decide (image.h = 1920))
  let images := cropTiles image 480 640
  ⟨errored,
   transfo1 r.g1 images :: transfo2 r.g2 images ::
     (List.range n).map (fun k => localTransfo (r.loc k) images)⟩

/-- The fixed student temperature of `DINOLoss` (`student_temp=0.1`). -/
def studentTempVal : ℚ := 1/10

/-- Modelled from the spec: `F.softmax(·, dim=-1)` on one row; the
transcendental exponential is passed explicitly as `ex`. -/
def softmaxRow (ex : ℚ → ℚ) (row : List ℚ) : List ℚ :=
  let e := row.map ex
  e.map (fun v => v / e.sum)

/-- Modelled from the spec: `F.log_softmax(·, dim=-1)` on one row:
`x_i - log(sum_j exp(x_j))`, with `ex`/`lg` the explicit exponential and
logarithm. -/
def logSoftmaxRow (ex lg : ℚ → ℚ) (row : List ℚ) : List ℚ :=
  row.map (fun x => x - lg ((row.map ex).sum))

/-- Mean of a list of rationals (`.mean()` over the batch axis). -/
def meanQ (l : List ℚ) : ℚ := l.sum / l.length

/-- One loss term of `DINOLoss.forward`:
`torch.sum(-q * F.log_softmax(student_out[v], dim=-1), dim=-1).mean()` for a
teacher chunk `q` and a student chunk `sv` (each a batch of rows). -/
def pairTerm (ex lg : ℚ → ℚ) (q sv : List (List ℚ)) : ℚ :=
  meanQ (q.zipWith (fun qrow srow =>
    (qrow.zipWith (fun qi li => -(qi * li)) (logSoftmaxRow ex lg srow)).sum) sv)

/-- Split a list into pieces of `k` elements (the last piece possibly
shorter); the fuel argument makes the recursion structural. -/
def chunksOfAux (k : Nat) : Nat → List α → List (List α)
  | 0, _ => []
  | _, [] => []
  | fuel + 1, l => l.take k :: chunksOfAux k fuel (l.drop k)

/-- `torch.chunk`-style splitting into pieces of `k` elements. -/
def chunksOf (k : Nat) (l : List α) : List (List α) :=
  if k = 0 then [] else chunksOfAux k l.length l

/-- `tensor.chunk(n)` along the first axis: pieces of `ceil(len / n)`
elements. -/
def torchChunk (n : Nat) (l : List α) : List (List α) :=
  chunksOf ((l.length + n - 1) / n) l

/-- The double loop of `DINOLoss.forward`: every (teacher chunk index,
student chunk index) pair except the equal-index ones, in loop order. -/
def lossPairs (nTeacher nStudent : Nat) : List (Nat × Nat) :=
  (List.range nTeacher).flatMap (fun iq =>
    ((List.range nStudent).filter (fun v => !(v == iq))).map (fun v => (iq, v)))

/-- `DINOLoss.forward(student_output, teacher_output, epoch)` with the centre
vector and the epoch's teacher temperature passed in as the module state they
are read from, and the transcendental `exp`/`log` passed explicitly: scale the
student rows by `1/student_temp` and chunk into `ncrops`; centre, sharpen and
softmax the teacher rows and chunk into 2; sum the cross-entropy terms over
all index-distinct chunk pairs and divide by the number of terms. -/
def dinoLossForward (ex lg : ℚ → ℚ) (ncrops : Nat) (center : List ℚ)
    (temp : ℚ) (studentOutput teacherOutput : List (List ℚ)) : ℚ :=
  let studentOut := torchChunk ncrops
    (studentOutput.map (fun row => row.map (fun x => x / studentTempVal)))
  let teacherOut := torchChunk 2
    (teacherOutput.map (fun row =>
      softmaxRow ex (row.zipWith (fun t c => (t - c) / temp) center)))
  let pairs := lossPairs teacherOut.length studentOut.length
  let totalLoss :=
    (pairs.map (fun p => pairTerm ex lg (teacherOut.getD p.1 []) (studentOut.getD p.2 []))).sum
  totalLoss / (pairs.length : ℚ)

/-- The value of `n_loss_terms` accumulated by `DINOLoss.forward` for the
given inputs (the chunk counts are unchanged by the row-wise scaling and
softmax maps, so they are taken on the raw outputs). -/
def dinoLossTermCount (ncrops : Nat) (studentOutput teacherOutput : List (List ℚ)) : Nat :=
  (lossPairs (torchChunk 2 teacherOutput).length (torchChunk ncrops studentOutput).length).length

/-- Python list-object store: list objects (of frame images) indexed by
identity.  Used to model the aliasing behaviour of `inp_images.copy()` and the
in-place slot assignments of the branch transforms. -/
abbrev Store := List (List Img)

/-- Read a list object from the store. -/
def storeGet (s : Store) (i : Nat) : List Img := s.getD i []

/-- Rebind the slots of one list object in the store. -/
def storeSet (s : Store) (i : Nat) (v : List Img) : Store := s.set i v

/-- Store-level `Global_transfo.transfo1`, taking the caller's frame list as a
reference `lid` into the store: `images = inp_images.copy()` allocates a new
list object sharing the caller's element bindings; every subsequent slot
assignment targets the copy, and `images = transform_GB(images)` rebinds the
local variable to the freshly built blurred list. -/
def transfo1St (r : BranchRand) (lid : Nat) (st : Store) : View × Store :=
  let copyId := st.length
  let st1 := st ++ [storeGet st lid]
  let rect := getCropParams ((storeGet st1 copyId).headD dfltImg) r.crop
  let st2 := storeSet st1 copyId (cropStage 224 rect (storeGet st1 copyId))
  let imageDiff := makeDiffs (storeGet st2 copyId)
  let st3 := if r.hflipU > 1/2 then storeSet st2 copyId ((storeGet st2 copyId).map hflipImg) else st2
  let st4 := if r.vflipU > 1/2 then storeSet st3 copyId ((storeGet st3 copyId).map vflipImg) else st3
  let jp := colorJitterGetParams r.jitter
  let st5 := storeSet st4 copyId ((storeGet st4 copyId).map (applyColorJitter jp))
  let blurId := st5.length
  let st6 := st5 ++ [gaussianBlurList (transfo1BlurDoIt r.blurU) (storeGet st5 copyId)]
  let frames := (storeGet st6 blurId).map (fun im => normalizeImg (toTensorImg im))
  let diffsN := imageDiff.map (fun im => normalizeDiffT (toTensorImg im))
  (⟨assembleView frames diffsN⟩, st6)

/-- Store-level `Global_transfo.transfo2` (blur gate 0.1, then solarization
gate 0.2, again rebinding to a fresh list object). -/
def transfo2St (r : BranchRand) (lid : Nat) (st : Store) : View × Store :=
  let copyId := st.length
  let st1 := st ++ [storeGet st lid]
  let rect := getCropParams ((storeGet st1 copyId).headD dfltImg) r.crop
  let st2 := storeSet st1 copyId (cropStage 224 rect (storeGet st1 copyId))
  let imageDiff := makeDiffs (storeGet st2 copyId)
  let st3 := if r.hflipU > 1/2 then storeSet st2 copyId ((storeGet st2 copyId).map hflipImg) else st2
  let st4 := if r.vflipU > 1/2 then storeSet st3 copyId ((storeGet st3 copyId).map vflipImg) else st3
  let jp := colorJitterGetParams r.jitter
  let st5 := storeSet st4 copyId ((storeGet st4 copyId).map (applyColorJitter jp))
  let blurId := st5.length
  let st6 := st5 ++ [gaussianBlurList (transfo2BlurDoIt r.blurU) (storeGet st5 copyId)]
  let solarId := st6.length
  let st7 := st6 ++ [solarizeList (transfo2SolarDoIt r.solarU) (storeGet st6 blurId)]
  let frames := (storeGet st7 solarId).map (fun im => normalizeImg (toTensorImg im))
  let diffsN := imageDiff.map (fun im => normalizeDiffT (toTensorImg im))
  (⟨assembleView frames diffsN⟩, st7)

/-- Store-level `Global_transfo.local_transfo` (96×96 target, blur gate
0.5). -/
def localTransfoSt (r : BranchRand) (lid : Nat) (st : Store) : View × Store :=
  let copyId := st.length
  let st1 := st ++ [storeGet st lid]
  let rect := getCropParams ((storeGet st1 copyId).headD dfltImg) r.crop
  let st2 := storeSet st1 copyId (cropStage 96 rect (storeGet st1 copyId))
  let imageDiff := makeDiffs (storeGet st2 copyId)
  let st3 := if r.hflipU > 1/2 then storeSet st2 copyId ((storeGet st2 copyId).map hflipImg) else st2
  let st4 := if r.vflipU > 1/2 then storeSet st3 copyId ((storeGet st3 copyId).map vflipImg) else st3
  let jp := colorJitterGetParams r.jitter
  let st5 := storeSet st4 copyId ((storeGet st4 copyId).map (applyColorJitter jp))
  let blurId := st5.length
  let st6 := st5 ++ [gaussianBlurList (localBlurDoIt r.blurU) (storeGet st5 copyId)]
  let frames := (storeGet st6 blurId).map (fun im => normalizeImg (toTensorImg im))
  let diffsN := imageDiff.map (fun im => normalizeDiffT (toTensorImg im))
  (⟨assembleView frames diffsN⟩, st6)

/-- The `for _ in range(self.local_crops_number)` loop of
`DataAugmentationDINO.__call__` at store level, iterating over the remaining
iteration indices. -/
def localLoopAux (r : CallRand) (tid : Nat) : List Nat → Store → List View × Store
  | [], st => ([], st)
  | k :: ks, st =>
    let p := localTransfoSt (r.loc k) tid st
    let q := localLoopAux r tid ks p.2
    (p.1 :: q.1, q.2)

/-- Store-level `DataAugmentationDINO.__call__`: the tile list is allocated
once and the same list object is passed to all `2 + n` branch invocations in
sequence. -/
def dinoCallSt (n : Nat) (r : CallRand) (image : Img) (st : Store) : CallResult × Store :=
  let errored := !(decide (image.w = 640) && decide (image.h = 1920))
  let tid := st.length
  let st0 := st ++ [cropTiles image 480 640]
  let p1 := transfo1St r.g1 tid st0
  let p2 := transfo2St r.g2 tid p1.2
  let pl := localLoopAux r tid (List.range n) p2.2
  (⟨errored, p1.1 :: p2.1 :: pl.1⟩, pl.2)

/-- Definition following the spec's words (ViewAssembler, §4.5): "build the
output tensor by iterating frames from last to first, and between consecutive
frames insert the corresponding difference tensor" — so the slice order is
`frame[F-1], diff[F-2], frame[F-2], ..., diff[0], frame[0]` and index 0 is the
last frame.  Compared against `assembleView` (the order the code builds). -/
def specAssemble (frames diffs : List TImg) : List TImg :=
  match frames with
  | [] => []
  | f0 :: fs => ((fs.zip diffs).reverse.flatMap (fun p => [p.1, p.2])) ++ [f0]

/-- Definition following the spec's words (DistillationLoss, §4.7): "mean over
all (teacher_view, student_view) pairs where teacher_view index ≠ student_view
index, of `sum_over_classes(-teacher_prob * student_log_prob)`, averaged first
over the batch then over all valid pairs (pair count = 2 × ncrops − 2)". -/
def specDinoLoss (ex lg : ℚ → ℚ) (ncrops : Nat) (center : List ℚ)
    (temp : ℚ) (studentOutput teacherOutput : List (List ℚ)) : ℚ :=
  let studentOut := torchChunk ncrops
    (studentOutput.map (fun row => row.map (fun x => x / studentTempVal)))
  let teacherOut := torchChunk 2
    (teacherOutput.map (fun row =>
      softmaxRow ex (row.zipWith (fun t c => (t - c) / temp) center)))
  (((List.range 2).map (fun iq =>
      ((List.range ncrops).map (fun v =>
        if v = iq then 0
        else pairTerm ex lg (teacherOut.getD iq []) (studentOut.getD v []))).sum)).sum)
    / ((2 * ncrops - 2 : Nat) : ℚ)

/-- Closed form of the concatenation loop (`assembleView`): for nonempty
frames `f0 :: fs` the dim-1 slice order is
`diff[F-2], frame[F-1], diff[F-3], frame[F-2], ..., diff[0], frame[1],
frame[0]` — the reversed frame/difference interleave with the LAST DIFFERENCE
at index 0 and the first frame last. -/
def interleaveRev (frames diffs : List TImg) : List TImg :=
  match frames with
  | [] => []
  | f0 :: fs => ((fs.zip diffs).reverse.flatMap (fun p => [p.2, p.1])) ++ [f0]

/-- The crop/resize stage of a branch: one rectangle sampled from the head
frame, applied to every frame. -/
def croppedOf (sz : Nat) (r : BranchRand) (ims : List Img) : List Img :=
  cropStage sz (getCropParams (ims.headD dfltImg) r.crop) ims

/-- The crop stage followed by the two gated whole-sequence flips. -/
def flippedOf (sz : Nat) (r : BranchRand) (ims : List Img) : List Img :=
  let images := croppedOf sz r ims
  let images := if r.hflipU > 1/2 then images.map hflipImg else images
  if r.vflipU > 1/2 then images.map vflipImg else images

/-- The flip stage followed by colour jitter with the branch's single sampled
parameter set. -/
def jitteredOf (sz : Nat) (r : BranchRand) (ims : List Img) : List Img :=
  (flippedOf sz r ims).map (applyColorJitter (colorJitterGetParams r.jitter))

/-- The PIL-frame pipeline of `transfo1` (blur gated at 0.5, no
solarization). -/
def framesPIL1 (r : BranchRand) (ims : List Img) : List Img :=
  gaussianBlurList (transfo1BlurDoIt r.blurU) (jitteredOf 224 r ims)

/-- The PIL-frame pipeline of `transfo2` (blur gated at 0.1, solarization
gated at 0.2). -/
def framesPIL2 (r : BranchRand) (ims : List Img) : List Img :=
  solarizeList (transfo2SolarDoIt r.solarU)
    (gaussianBlurList (transfo2BlurDoIt r.blurU) (jitteredOf 224 r ims))

/-- The PIL-frame pipeline of `local_transfo` (96×96, blur gated at 0.5). -/
def framesPILloc (r : BranchRand) (ims : List Img) : List Img :=
  gaussianBlurList (localBlurDoIt r.blurU) (jitteredOf 96 r ims)

/-- The normalized frame tensors of `transfo1`, in frame order. -/
def viewFrames1 (r : BranchRand) (ims : List Img) : List TImg :=
  (framesPIL1 r ims).map (fun im => normalizeImg (toTensorImg im))

/-- The normalized frame tensors of `transfo2`, in frame order. -/
def viewFrames2 (r : BranchRand) (ims : List Img) : List TImg :=
  (framesPIL2 r ims).map (fun im => normalizeImg (toTensorImg im))

/-- The normalized frame tensors of `local_transfo`, in frame order. -/
def viewFramesLoc (r : BranchRand) (ims : List Img) : List TImg :=
  (framesPILloc r ims).map (fun im => normalizeImg (toTensorImg im))

/-- The normalized difference tensors of a branch: computed from the
crop/resize stage output (before any flip, jitter, blur or solarization). -/
def viewDiffs (sz : Nat) (r : BranchRand) (ims : List Img) : List TImg :=
  (makeDiffs (croppedOf sz r ims)).map (fun im => normalizeDiffT (toTensorImg im))

/-- The whole per-frame transformation a branch applies between input frame
and normalized-tensor conversion, with all sampled parameters fixed: used to
state that a branch applies ONE function (one rectangle, one flip decision
pair, one jitter parameter set, one blur/solarize decision) to every frame. -/
def branchFrameMap (sz : Nat) (rect : CropRect) (doH doV : Bool)
    (jp : JitterParams) (doBlur doSolar : Bool) (im : Img) : Img :=
  let im := resizeSq sz (tfCrop rect im)
  let im := if doH then hflipImg im else im
  let im := if doV then vflipImg im else im
  let im := applyColorJitter jp im
  let im := if doBlur then gaussianBlurImg im else im
  if doSolar then solarizeImg im else im

/-- Concrete 1×1 all-black test frame. -/
def wFrame : Img := ⟨1, 1, fun _ _ => blackPix⟩

/-- Concrete branch randomness: trivial crop draw, no flips, identity-level
jitter factors (unit draws 1/2), blur and solarization draws 0. -/
def wRand : BranchRand :=
  ⟨⟨0, 0, 1, 1⟩, 0, 0, ⟨[0, 1, 2, 3], 1/2, 1/2, 1/2, 1/2⟩, 0, 0⟩

/-- Concrete 500×640 composite whose height is not a multiple of 480. -/
def wImg500 : Img := ⟨500, 640, fun _ _ => ⟨1, 1, 1⟩⟩

/-- Concrete 1920×640 composite with position-dependent pixels. -/
def wImg1920 : Img := ⟨1920, 640, fun r c => ⟨r % 7, c % 5, 3⟩⟩

/-- Concrete call randomness reusing `wRand` everywhere. -/
def wCallRand : CallRand := ⟨wRand, wRand, fun _ => wRand⟩

@[simp] theorem tfCrop_h (rect : CropRect) (im : Img) : (tfCrop rect im).h = rect.ch := rfl

@[simp] theorem tfCrop_w (rect : CropRect) (im : Img) : (tfCrop rect im).w = rect.cw := rfl

@[simp] theorem resizeSq_h (s : Nat) (im : Img) : (resizeSq s im).h = s := rfl

@[simp] theorem resizeSq_w (s : Nat) (im : Img) : (resizeSq s im).w = s := rfl

@[simp] theorem hflipImg_h (im : Img) : (hflipImg im).h = im.h := rfl

@[simp] theorem hflipImg_w (im : Img) : (hflipImg im).w = im.w := rfl

@[simp] theorem vflipImg_h (im : Img) : (vflipImg im).h = im.h := rfl

@[simp] theorem vflipImg_w (im : Img) : (vflipImg im).w = im.w := rfl

@[simp] theorem gaussianBlurImg_h (im : Img) : (gaussianBlurImg im).h = im.h := rfl

@[simp] theorem gaussianBlurImg_w (im : Img) : (gaussianBlurImg im).w = im.w := rfl

@[simp] theorem solarizeImg_h (im : Img) : (solarizeImg im).h = im.h := rfl

@[simp] theorem solarizeImg_w (im : Img) : (solarizeImg im).w = im.w := rfl

@[simp] theorem subtractOffset2_h (a b : Img) : (subtractOffset2 a b).h = a.h := rfl

@[simp] theorem subtractOffset2_w (a b : Img) : (subtractOffset2 a b).w = a.w := rfl

@[simp] theorem toTensorImg_h (im : Img) : (toTensorImg im).h = im.h := rfl

@[simp] theorem toTensorImg_w (im : Img) : (toTensorImg im).w = im.w := rfl

@[simp] theorem normalizeImg_h (t : TImg) : (normalizeImg t).h = t.h := rfl

@[simp] theorem normalizeImg_w (t : TImg) : (normalizeImg t).w = t.w := rfl

@[simp] theorem normalizeDiffT_h (t : TImg) : (normalizeDiffT t).h = t.h := rfl

@[simp] theorem normalizeDiffT_w (t : TImg) : (normalizeDiffT t).w = t.w := rfl

theorem applyColorJitter_dims (p : JitterParams) (im : Img) :
    (applyColorJitter p im).h = im.h ∧ (applyColorJitter p im).w = im.w := by
  unfold applyColorJitter
  generalize p.fnIdx = ops
  induction ops generalizing im with
  | nil => exact ⟨rfl, rfl⟩
  | cons o t ih =>
    simp only [List.foldl_cons]
    have hg : ∀ (img : Img),
        ((if o = 0 then adjBrightness p.brightness img
          else if o = 1 then adjContrast p.contrast img
          else if o = 2 then adjSaturation p.saturation img
          else if o = 3 then adjHue p.hue img
          else img).h = img.h) ∧
        ((if o = 0 then adjBrightness p.brightness img
          else if o = 1 then adjContrast p.contrast img
          else if o = 2 then adjSaturation p.saturation img
          else if o = 3 then adjHue p.hue img
          else img).w = img.w) := by
      intro img
      constructor <;> (repeat' split) <;> rfl
    obtain ⟨h1, h2⟩ := ih _
    exact ⟨h1.trans (hg im).1, h2.trans (hg im).2⟩

theorem foldl_prepend_pairs (l : List (TImg × TImg)) (a : List TImg) :
    l.foldl (fun acc p => p.2 :: p.1 :: acc) a
      = (l.reverse.flatMap (fun p => [p.2, p.1])) ++ a := by
  induction l generalizing a with
  | nil => simp
  | cons p t ih =>
    simp only [List.foldl_cons, List.reverse_cons, List.flatMap_append, ih]
    simp

theorem assembleView_eq_interleaveRev (frames diffs : List TImg) :
    assembleView frames diffs = interleaveRev frames diffs := by
  cases frames with
  | nil => rfl
  | cons f0 fs =>
    simp only [assembleView, interleaveRev]
    exact foldl_prepend_pairs _ _

theorem interleaveRev_length (frames diffs : List TImg) :
    (interleaveRev frames diffs).length
      = 2 * min (frames.length - 1) diffs.length + min frames.length 1 := by
  cases frames with
  | nil => simp [interleaveRev]
  | cons f0 fs =>
    simp only [interleaveRev]
    rw [List.length_append]
    have : ∀ l : List (TImg × TImg), (l.flatMap (fun p => [p.2, p.1])).length = 2 * l.length := by
      intro l
      induction l with
      | nil => rfl
      | cons p t ih => simp [ih]; ring
    simp [this, List.length_zip]

theorem makeDiffs_length : ∀ (l : List Img), (makeDiffs l).length = l.length - 1
  | [] => rfl
  | [_] => rfl
  | a :: b :: rest => by
    simp only [makeDiffs, List.length_cons, makeDiffs_length (b :: rest)]
    omega

theorem makeDiffs_getD : ∀ (l : List Img) (i : Nat), i + 1 < l.length →
    (makeDiffs l).getD i dfltImg
      = subtractOffset2 (l.getD i dfltImg) (l.getD (i + 1) dfltImg)
  | [], i, h => by simp at h
  | [_], i, h => by simp at h
  | a :: b :: rest, 0, _ => rfl
  | a :: b :: rest, i + 1, h => by
    simp only [List.getD_cons_succ]
    exact makeDiffs_getD (b :: rest) i (by simp at h ⊢; omega)

theorem mem_makeDiffs_dims (s : Nat) :
    ∀ (l : List Img), (∀ im ∈ l, im.h = s ∧ im.w = s) →
      ∀ d ∈ makeDiffs l, d.h = s ∧ d.w = s
  | [], _, d, hd => by simp [makeDiffs] at hd
  | [_], _, d, hd => by simp [makeDiffs] at hd
  | a :: b :: rest, hl, d, hd => by
    simp only [makeDiffs, List.mem_cons] at hd
    rcases hd with rfl | hd
    · have ha := hl a (by simp)
      exact ⟨by simp [ha.1], by simp [ha.2]⟩
    · exact mem_makeDiffs_dims s (b :: rest)
        (fun im hm => hl im (List.mem_cons_of_mem a hm)) d hd

theorem transfo1_eq (r : BranchRand) (ims : List Img) :
    transfo1 r ims = ⟨assembleView (viewFrames1 r ims) (viewDiffs 224 r ims)⟩ := rfl

theorem transfo2_eq (r : BranchRand) (ims : List Img) :
    transfo2 r ims = ⟨assembleView (viewFrames2 r ims) (viewDiffs 224 r ims)⟩ := rfl

theorem localTransfo_eq (r : BranchRand) (ims : List Img) :
    localTransfo r ims = ⟨assembleView (viewFramesLoc r ims) (viewDiffs 96 r ims)⟩ := rfl

theorem interleaveRev_getD_zero (frames diffs : List TImg)
    (h2 : 2 ≤ frames.length) (hd : diffs.length = frames.length - 1) :
    (interleaveRev frames diffs).getD 0 dfltT = diffs.getD (frames.length - 2) dfltT := by
  cases frames with
  | nil => simp at h2
  | cons f0 fs =>
    have hfs : 1 ≤ fs.length := by simp at h2; omega
    have hdl : diffs.length = fs.length := by simp at hd; omega
    have hzlen : (fs.zip diffs).length = fs.length := by simp [List.length_zip, hdl]
    have hz : fs.zip diffs ≠ [] := by
      intro h
      rw [h] at hzlen
      simp at hzlen
      omega
    cases hrev : (fs.zip diffs).reverse with
    | nil =>
      have : (fs.zip diffs).length = 0 := by simpa using congrArg List.length hrev
      omega
    | cons q t =>
      have hhead : (fs.zip diffs).reverse.head? = some q := by rw [hrev]; rfl
      rw [List.head?_reverse] at hhead
      have hlast : (fs.zip diffs).getLast hz = q := by
        have := List.getLast?_eq_getLast (fs.zip diffs) hz
        rw [this] at hhead
        exact Option.some.inj hhead
      have hidx : fs.length - 1 < (fs.zip diffs).length := by omega
      have hq : q = ((fs.zip diffs).get ⟨fs.length - 1, hidx⟩) := by
        rw [← hlast, List.getLast_eq_getElem]
        simp [hzlen]
      have hq2 : q.2 = diffs.getD (fs.length - 1) dfltT := by
        rw [hq]
        have hb : fs.length - 1 < diffs.length := by omega
        simp [List.getElem_zip, List.getD_eq_getElem?_getD, List.getElem?_eq_getElem hb]
      simp only [interleaveRev, hrev, List.flatMap_cons]
      simp only [List.cons_append, List.getD_cons_zero]
      rw [hq2]
      congr 1

theorem interleaveRev_getD_one (frames diffs : List TImg)
    (h2 : 2 ≤ frames.length) (hd : diffs.length = frames.length - 1) :
    (interleaveRev frames diffs).getD 1 dfltT = frames.getD (frames.length - 1) dfltT := by
  cases frames with
  | nil => simp at h2
  | cons f0 fs =>
    have hfs : 1 ≤ fs.length := by simp at h2; omega
    have hdl : diffs.length = fs.length := by simp at hd; omega
    have hzlen : (fs.zip diffs).length = fs.length := by simp [List.length_zip, hdl]
    have hz : fs.zip diffs ≠ [] := by
      intro h
      rw [h] at hzlen
      simp at hzlen
      omega
    cases hrev : (fs.zip diffs).reverse with
    | nil =>
      have : (fs.zip diffs).length = 0 := by simpa using congrArg List.length hrev
      omega
    | cons q t =>
      have hhead : (fs.zip diffs).reverse.head? = some q := by rw [hrev]; rfl
      rw [List.head?_reverse] at hhead
      have hlast : (fs.zip diffs).getLast hz = q := by
        have := List.getLast?_eq_getLast (fs.zip diffs) hz
        rw [this] at hhead
        exact Option.some.inj hhead
      have hidx : fs.length - 1 < (fs.zip diffs).length := by omega
      have hq : q = ((fs.zip diffs).get ⟨fs.length - 1, hidx⟩) := by
        rw [← hlast, List.getLast_eq_getElem]
        simp [hzlen]
      have hq1 : q.1 = fs.getD (fs.length - 1) dfltT := by
        rw [hq]
        have hb : fs.length - 1 < fs.length := by omega
        simp [List.getElem_zip, List.getD_eq_getElem?_getD, List.getElem?_eq_getElem hb]
      simp only [interleaveRev, hrev, List.flatMap_cons]
      simp only [List.cons_append, List.getD_cons_succ, List.getD_cons_zero]
      rw [hq1]
      have hfl : (f0 :: fs).length - 1 = (fs.length - 1) + 1 := by
        simp only [List.length_cons]
        omega
      rw [hfl, List.getD_cons_succ]

theorem interleaveRev_getD_last (frames diffs : List TImg)
    (h1 : 1 ≤ frames.length) (hd : diffs.length = frames.length - 1) :
    (interleaveRev frames diffs).getD (2 * frames.length - 2) dfltT
      = frames.getD 0 dfltT := by
  cases frames with
  | nil => simp at h1
  | cons f0 fs =>
    have hdl : diffs.length = fs.length := by simp at hd; omega
    have hflat : ((fs.zip diffs).reverse.flatMap (fun p => [p.2, p.1])).length = 2 * fs.length := by
      have hfl : ∀ l : List (TImg × TImg), (l.flatMap (fun p => [p.2, p.1])).length = 2 * l.length := by
        intro l
        induction l with
        | nil => rfl
        | cons p t ih => simp [ih]; ring
      simp [hfl, List.length_zip, hdl]
    simp only [interleaveRev]
    have hidx : 2 * (f0 :: fs).length - 2
        = ((fs.zip diffs).reverse.flatMap (fun p => [p.2, p.1])).length := by
      simp only [List.length_cons, hflat]
      omega
    rw [hidx, List.getD_append_right _ _ _ _ (Nat.le_refl _)]
    simp

@[simp] theorem gaussianBlurList_length (b : Bool) (ims : List Img) :
    (gaussianBlurList b ims).length = ims.length := by
  cases b <;> simp [gaussianBlurList]

@[simp] theorem solarizeList_length (b : Bool) (ims : List Img) :
    (solarizeList b ims).length = ims.length := by
  cases b <;> simp [solarizeList]

@[simp] theorem croppedOf_length (sz : Nat) (r : BranchRand) (ims : List Img) :
    (croppedOf sz r ims).length = ims.length := by
  simp [croppedOf, cropStage]

@[simp] theorem flippedOf_length (sz : Nat) (r : BranchRand) (ims : List Img) :
    (flippedOf sz r ims).length = ims.length := by
  simp only [flippedOf]
  split <;> split <;> simp

@[simp] theorem jitteredOf_length (sz : Nat) (r : BranchRand) (ims : List Img) :
    (jitteredOf sz r ims).length = ims.length := by
  simp [jitteredOf]

@[simp] theorem framesPIL1_length (r : BranchRand) (ims : List Img) :
    (framesPIL1 r ims).length = ims.length := by
  simp [framesPIL1]

@[simp] theorem framesPIL2_length (r : BranchRand) (ims : List Img) :
    (framesPIL2 r ims).length = ims.length := by
  simp [framesPIL2]

@[simp] theorem framesPILloc_length (r : BranchRand) (ims : List Img) :
    (framesPILloc r ims).length = ims.length := by
  simp [framesPILloc]

@[simp] theorem viewFrames1_length (r : BranchRand) (ims : List Img) :
    (viewFrames1 r ims).length = ims.length := by
  simp [viewFrames1]

@[simp] theorem viewFrames2_length (r : BranchRand) (ims : List Img) :
    (viewFrames2 r ims).length = ims.length := by
  simp [viewFrames2]

@[simp] theorem viewFramesLoc_length (r : BranchRand) (ims : List Img) :
    (viewFramesLoc r ims).length = ims.length := by
  simp [viewFramesLoc]

@[simp] theorem viewDiffs_length (sz : Nat) (r : BranchRand) (ims : List Img) :
    (viewDiffs sz r ims).length = ims.length - 1 := by
  simp [viewDiffs, makeDiffs_length]

theorem mem_croppedOf_dims (sz : Nat) (r : BranchRand) (ims : List Img) :
    ∀ im ∈ croppedOf sz r ims, im.h = sz ∧ im.w = sz := by
  intro im hm
  simp only [croppedOf, cropStage, List.mem_map] at hm
  obtain ⟨x, _, rfl⟩ := hm
  exact ⟨rfl, rfl⟩

theorem mem_flippedOf_dims (sz : Nat) (r : BranchRand) (ims : List Img) :
    ∀ im ∈ flippedOf sz r ims, im.h = sz ∧ im.w = sz := by
  intro im hm
  simp only [flippedOf] at hm
  split at hm <;> split at hm <;>
    first
      | exact mem_croppedOf_dims sz r ims im hm
      | · simp only [List.mem_map] at hm
          first
            | (obtain ⟨x, hx, rfl⟩ := hm
               have := mem_croppedOf_dims sz r ims x hx
               simpa using this)
            | (obtain ⟨x, hx, rfl⟩ := hm
               obtain ⟨y, hy, rfl⟩ := hx
               have := mem_croppedOf_dims sz r ims y hy
               simpa using this)

theorem mem_jitteredOf_dims (sz : Nat) (r : BranchRand) (ims : List Img) :
    ∀ im ∈ jitteredOf sz r ims, im.h = sz ∧ im.w = sz := by
  intro im hm
  simp only [jitteredOf, List.mem_map] at hm
  obtain ⟨x, hx, rfl⟩ := hm
  have hd := mem_flippedOf_dims sz r ims x hx
  have hj := applyColorJitter_dims (colorJitterGetParams r.jitter) x
  exact ⟨hj.1.trans hd.1, hj.2.trans hd.2⟩

theorem mem_blurList_dims (b : Bool) (l : List Img) (sz : Nat)
    (hl : ∀ im ∈ l, im.h = sz ∧ im.w = sz) :
    ∀ im ∈ gaussianBlurList b l, im.h = sz ∧ im.w = sz := by
  intro im hm
  cases b with
  | false => exact hl im hm
  | true =>
    simp only [gaussianBlurList, if_true] at hm
    obtain ⟨x, hx, rfl⟩ := List.mem_map.1 hm
    simpa using hl x hx

theorem mem_solarList_dims (b : Bool) (l : List Img) (sz : Nat)
    (hl : ∀ im ∈ l, im.h = sz ∧ im.w = sz) :
    ∀ im ∈ solarizeList b l, im.h = sz ∧ im.w = sz := by
  intro im hm
  cases b with
  | false => exact hl im hm
  | true =>
    simp only [solarizeList, if_true] at hm
    obtain ⟨x, hx, rfl⟩ := List.mem_map.1 hm
    simpa using hl x hx

theorem mem_viewFrames1_dims (r : BranchRand) (ims : List Img) :
    ∀ t ∈ viewFrames1 r ims, t.h = 224 ∧ t.w = 224 := by
  intro t ht
  simp only [viewFrames1, List.mem_map] at ht
  obtain ⟨x, hx, rfl⟩ := ht
  have := mem_blurList_dims _ _ 224 (mem_jitteredOf_dims 224 r ims) x hx
  simpa using this

theorem mem_viewFrames2_dims (r : BranchRand) (ims : List Img) :
    ∀ t ∈ viewFrames2 r ims, t.h = 224 ∧ t.w = 224 := by
  intro t ht
  simp only [viewFrames2, List.mem_map] at ht
  obtain ⟨x, hx, rfl⟩ := ht
  have := mem_solarList_dims _ _ 224
    (mem_blurList_dims _ _ 224 (mem_jitteredOf_dims 224 r ims)) x hx
  simpa using this

theorem mem_viewFramesLoc_dims (r : BranchRand) (ims : List Img) :
    ∀ t ∈ viewFramesLoc r ims, t.h = 96 ∧ t.w = 96 := by
  intro t ht
  simp only [viewFramesLoc, List.mem_map] at ht
  obtain ⟨x, hx, rfl⟩ := ht
  have := mem_blurList_dims _ _ 96 (mem_jitteredOf_dims 96 r ims) x hx
  simpa using this

theorem mem_viewDiffs_dims (sz : Nat) (r : BranchRand) (ims : List Img) :
    ∀ t ∈ viewDiffs sz r ims, t.h = sz ∧ t.w = sz := by
  intro t ht
  simp only [viewDiffs, List.mem_map] at ht
  obtain ⟨x, hx, rfl⟩ := ht
  have := mem_makeDiffs_dims sz _ (mem_croppedOf_dims sz r ims) x hx
  simpa using this

theorem mem_assembleView (frames diffs : List TImg) :
    ∀ t ∈ assembleView frames diffs, t ∈ frames ∨ t ∈ diffs := by
  rw [assembleView_eq_interleaveRev]
  cases frames with
  | nil => simp [interleaveRev]
  | cons f0 fs =>
    intro t ht
    simp only [interleaveRev, List.mem_append, List.mem_flatMap, List.mem_reverse] at ht
    rcases ht with ⟨p, hp, hmem⟩ | ht
    · obtain ⟨p1, p2⟩ := p
      have hz := List.of_mem_zip hp
      simp only [List.mem_cons, List.mem_singleton, List.not_mem_nil, or_false] at hmem
      rcases hmem with rfl | rfl
      · exact Or.inr hz.2
      · exact Or.inl (List.mem_cons_of_mem _ hz.1)
    · simp only [List.mem_singleton] at ht
      subst ht
      exact Or.inl (by simp)

theorem getD_map_of_lt {α β : Type} (f : α → β) (l : List α) (x : Nat)
    (hx : x < l.length) (da : α) (db : β) :
    (l.map f).getD x db = f (l.getD x da) := by
  rw [List.getD_eq_getElem?_getD, List.getElem?_map, List.getElem?_eq_getElem hx,
      List.getD_eq_getElem?_getD, List.getElem?_eq_getElem hx]
  rfl

/-- Claim C1, counterexample: with two identical black frames and neutral
draws, the first dim-1 slice of the view `transfo1` builds differs (already at
pixel (0,0)) from the first slice of the spec's assembly order, whose index 0
is the last normalized frame — index 0 of the code's view is the last
normalized DIFFERENCE, not the last frame. -/
theorem claimC1_counterexample :
    ((transfo1 wRand [wFrame, wFrame]).slices.getD 0 dfltT).pix 0 0
      ≠ ((specAssemble (viewFrames1 wRand [wFrame, wFrame])
            (viewDiffs 224 wRand [wFrame, wFrame])).getD 0 dfltT).pix 0 0 := by
  norm_num [transfo1, specAssemble, viewFrames1, viewDiffs, framesPIL1, jitteredOf, flippedOf,
    croppedOf, cropStage, assembleView, makeDiffs, subtractOffset2, clampChan, wRand, wFrame,
    getCropParams, tfCrop, resizeSq, applyColorJitter, colorJitterGetParams, uniformIn,
    factorInterval, hueInterval, adjBrightness, adjContrast, adjSaturation, adjHue, mapPix,
    qToChan, gaussianBlurList, transfo1BlurDoIt, normalizeImg, normalizeDiffT, toTensorImg,
    blackPix, dfltT, jitterBrightnessArg, jitterContrastArg, jitterSaturationArg, jitterHueArg]
  intro h1 h2
  norm_num [show Int.toNat 2 = 2 from rfl] at h1

/-- Claim C1, amended: every branch view stacks `2F−1` three-channel slices
(3×(2F−1) channel entries in a (3, 2F−1, H, W) tensor), interleaving the F
normalized frames with the F−1 normalized differences in reverse frame order
with the LAST DIFFERENCE at index 0; for F ≥ 2 the last frame is at index 1
and the first frame at the final index (for F = 1 the single slice is the
frame, which the closed form also covers). -/
theorem claimC1_view_interleave (r : BranchRand) (ims : List Img) :
    (transfo1 r ims).slices.length = 2 * ims.length - 1
  ∧ (transfo2 r ims).slices.length = 2 * ims.length - 1
  ∧ (localTransfo r ims).slices.length = 2 * ims.length - 1
  ∧ (transfo1 r ims).channelCount = 3 * (2 * ims.length - 1)
  ∧ (transfo2 r ims).channelCount = 3 * (2 * ims.length - 1)
  ∧ (localTransfo r ims).channelCount = 3 * (2 * ims.length - 1)
  ∧ (transfo1 r ims).slices = interleaveRev (viewFrames1 r ims) (viewDiffs 224 r ims)
  ∧ (transfo2 r ims).slices = interleaveRev (viewFrames2 r ims) (viewDiffs 224 r ims)
  ∧ (localTransfo r ims).slices = interleaveRev (viewFramesLoc r ims) (viewDiffs 96 r ims)
  ∧ (2 ≤ ims.length →
        (transfo1 r ims).slices.getD 0 dfltT
            = (viewDiffs 224 r ims).getD (ims.length - 2) dfltT
      ∧ (transfo1 r ims).slices.getD 1 dfltT
            = (viewFrames1 r ims).getD (ims.length - 1) dfltT
      ∧ (transfo1 r ims).slices.getD (2 * ims.length - 2) dfltT
            = (viewFrames1 r ims).getD 0 dfltT) := by
  have h1 : (transfo1 r ims).slices = interleaveRev (viewFrames1 r ims) (viewDiffs 224 r ims) := by
    rw [transfo1_eq]
    exact assembleView_eq_interleaveRev _ _
  have h2 : (transfo2 r ims).slices = interleaveRev (viewFrames2 r ims) (viewDiffs 224 r ims) := by
    rw [transfo2_eq]
    exact assembleView_eq_interleaveRev _ _
  have h3 : (localTransfo r ims).slices
      = interleaveRev (viewFramesLoc r ims) (viewDiffs 96 r ims) := by
    rw [localTransfo_eq]
    exact assembleView_eq_interleaveRev _ _
  have hl1 : (transfo1 r ims).slices.length = 2 * ims.length - 1 := by
    rw [h1, interleaveRev_length]
    simp
    omega
  have hl2 : (transfo2 r ims).slices.length = 2 * ims.length - 1 := by
    rw [h2, interleaveRev_length]
    simp
    omega
  have hl3 : (localTransfo r ims).slices.length = 2 * ims.length - 1 := by
    rw [h3, interleaveRev_length]
    simp
    omega
  refine ⟨hl1, hl2, hl3, ?_, ?_, ?_, h1, h2, h3, ?_⟩
  · simp [View.channelCount, hl1]
  · simp [View.channelCount, hl2]
  · simp [View.channelCount, hl3]
  · intro hF
    refine ⟨?_, ?_, ?_⟩
    · rw [h1, interleaveRev_getD_zero _ _ (by simpa using hF) (by simp)]
      congr 1
      simp
    · rw [h1, interleaveRev_getD_one _ _ (by simpa using hF) (by simp)]
      congr 1
      simp
    · rw [h1]
      have hidx : 2 * ims.length - 2 = 2 * (viewFrames1 r ims).length - 2 := by simp
      rw [hidx]
      exact interleaveRev_getD_last _ _ (by simp; omega) (by simp)

/-- Claim C1, witness at two concrete frames. -/
theorem claimC1_witness :
    (transfo1 wRand [wFrame, wFrame]).slices.length = 2 * 2 - 1
  ∧ (transfo1 wRand [wFrame, wFrame]).slices.getD 0 dfltT
      = (viewDiffs 224 wRand [wFrame, wFrame]).getD 0 dfltT := by
  have h := claimC1_view_interleave wRand [wFrame, wFrame]
  exact ⟨h.1, (h.2.2.2.2.2.2.2.2.2 (by decide)).1⟩

/-- Claim C2: every branch invocation samples exactly one crop rectangle from
the first frame's dimensions, applies that identical rectangle to every frame,
and resizes every cropped frame to the branch's fixed target resolution
(224×224 for the global branches, 96×96 for the local branch), so all slices
of a branch's view share the branch resolution and the rectangle provably
fits inside the reference frame. -/
theorem claimC2_crop_consistency (r : BranchRand) (ims : List Img) (x : Nat) :
    ((transfo1 r ims).slices.all (fun t => (t.h == 224) && (t.w == 224))) = true
  ∧ ((transfo2 r ims).slices.all (fun t => (t.h == 224) && (t.w == 224))) = true
  ∧ ((localTransfo r ims).slices.all (fun t => (t.h == 96) && (t.w == 96))) = true
  ∧ croppedOf 224 r ims
      = ims.map (fun im => resizeSq 224 (tfCrop (getCropParams (ims.headD dfltImg) r.crop) im))
  ∧ croppedOf 96 r ims
      = ims.map (fun im => resizeSq 96 (tfCrop (getCropParams (ims.headD dfltImg) r.crop) im))
  ∧ (x < ims.length →
      (croppedOf 224 r ims).getD x dfltImg
        = resizeSq 224 (tfCrop (getCropParams (ims.headD dfltImg) r.crop) (ims.getD x dfltImg)))
  ∧ (getCropParams (ims.headD dfltImg) r.crop).top
      + (getCropParams (ims.headD dfltImg) r.crop).ch ≤ (ims.headD dfltImg).h
  ∧ (getCropParams (ims.headD dfltImg) r.crop).left
      + (getCropParams (ims.headD dfltImg) r.crop).cw ≤ (ims.headD dfltImg).w := by
  refine ⟨?_, ?_, ?_, rfl, rfl, ?_, ?_, ?_⟩
  · rw [List.all_eq_true]
    intro t ht
    rw [transfo1_eq] at ht
    rcases mem_assembleView _ _ t ht with h | h
    · have := mem_viewFrames1_dims r ims t h
      simp [this.1, this.2]
    · have := mem_viewDiffs_dims 224 r ims t h
      simp [this.1, this.2]
  · rw [List.all_eq_true]
    intro t ht
    rw [transfo2_eq] at ht
    rcases mem_assembleView _ _ t ht with h | h
    · have := mem_viewFrames2_dims r ims t h
      simp [this.1, this.2]
    · have := mem_viewDiffs_dims 224 r ims t h
      simp [this.1, this.2]
  · rw [List.all_eq_true]
    intro t ht
    rw [localTransfo_eq] at ht
    rcases mem_assembleView _ _ t ht with h | h
    · have := mem_viewFramesLoc_dims r ims t h
      simp [this.1, this.2]
    · have := mem_viewDiffs_dims 96 r ims t h
      simp [this.1, this.2]
  · intro hx
    simp only [croppedOf, cropStage]
    exact getD_map_of_lt _ _ _ hx dfltImg dfltImg
  · simp only [getCropParams]
    omega
  · simp only [getCropParams]
    omega

/-- Claim C2, witness at a concrete frame list. -/
theorem claimC2_witness :
    (croppedOf 224 wRand [wFrame]).getD 0 dfltImg
      = resizeSq 224 (tfCrop (getCropParams ([wFrame].headD dfltImg) wRand.crop)
          ([wFrame].getD 0 dfltImg)) :=
  (claimC2_crop_consistency wRand [wFrame] 0).2.2.2.2.2.1 (by decide)

/-- Claim C3: the F−1 differences are `clamp(frame[i] - frame[i+1] + 2, 0,
255)` per channel, computed on the frames immediately after crop/resize
(`viewDiffs` depends only on the crop draw, so flips/jitter/blur/solarization
come strictly later); two pixel-identical consecutive frames give a difference
image whose every pixel is the constant offset 2 before normalization. -/
theorem claimC3_difference_encoding (sz : Nat) (r r2 : BranchRand) (ims : List Img)
    (i rr cc : Nat) :
    (i + 1 < ims.length →
       ((makeDiffs ims).getD i dfltImg).pix rr cc
         = ⟨clampChan ((((ims.getD i dfltImg).pix rr cc).r : Int)
               - (((ims.getD (i + 1) dfltImg).pix rr cc).r : Int) + 2),
            clampChan ((((ims.getD i dfltImg).pix rr cc).g : Int)
               - (((ims.getD (i + 1) dfltImg).pix rr cc).g : Int) + 2),
            clampChan ((((ims.getD i dfltImg).pix rr cc).b : Int)
               - (((ims.getD (i + 1) dfltImg).pix rr cc).b : Int) + 2)⟩)
  ∧ (r.crop = r2.crop → viewDiffs sz r ims = viewDiffs sz r2 ims)
  ∧ (transfo1 r ims).slices = interleaveRev (viewFrames1 r ims) (viewDiffs 224 r ims)
  ∧ (transfo2 r ims).slices = interleaveRev (viewFrames2 r ims) (viewDiffs 224 r ims)
  ∧ (localTransfo r ims).slices = interleaveRev (viewFramesLoc r ims) (viewDiffs 96 r ims)
  ∧ (i + 1 < ims.length → ims.getD i dfltImg = ims.getD (i + 1) dfltImg →
       ((makeDiffs (croppedOf sz r ims)).getD i dfltImg).pix rr cc = ⟨2, 2, 2⟩) := by
  refine ⟨?_, ?_, ?_, ?_, ?_, ?_⟩
  · intro hi
    rw [makeDiffs_getD ims i hi]
    rfl
  · intro h
    simp [viewDiffs, croppedOf, h]
  · rw [transfo1_eq]
    exact assembleView_eq_interleaveRev _ _
  · rw [transfo2_eq]
    exact assembleView_eq_interleaveRev _ _
  · rw [localTransfo_eq]
    exact assembleView_eq_interleaveRev _ _
  · intro hi heq
    have hc : i + 1 < (croppedOf sz r ims).length := by simpa using hi
    rw [makeDiffs_getD _ _ hc]
    have e1 : (croppedOf sz r ims).getD i dfltImg
        = resizeSq sz (tfCrop (getCropParams (ims.headD dfltImg) r.crop) (ims.getD i dfltImg)) := by
      simp only [croppedOf, cropStage]
      exact getD_map_of_lt _ _ _ (by omega) dfltImg dfltImg
    have e2 : (croppedOf sz r ims).getD (i + 1) dfltImg
        = resizeSq sz (tfCrop (getCropParams (ims.headD dfltImg) r.crop)
            (ims.getD (i + 1) dfltImg)) := by
      simp only [croppedOf, cropStage]
      exact getD_map_of_lt _ _ _ (by omega) dfltImg dfltImg
    rw [e1, e2, heq]
    simp [subtractOffset2, clampChan]

/-- Claim C3, witness at two identical concrete frames. -/
theorem claimC3_witness :
    ((makeDiffs (croppedOf 224 wRand [wFrame, wFrame])).getD 0 dfltImg).pix 0 0
      = ⟨2, 2, 2⟩ :=
  (claimC3_difference_encoding 224 wRand wRand [wFrame, wFrame] 0 0 0).2.2.2.2.2
    (by decide) rfl

/-- Claim C4: `DataAugmentationDINO.__call__` returns exactly `2 + N` views,
in the order first global view, second global view, then the `N` local views;
with `N = 0` exactly the two global views remain. -/
theorem claimC4_sample_views (n : Nat) (r : CallRand) (im : Img) :
    (dinoCall n r im).crops.length = 2 + n
  ∧ (dinoCall n r im).crops
      = transfo1 r.g1 (cropTiles im 480 640) :: transfo2 r.g2 (cropTiles im 480 640)
          :: (List.range n).map (fun k => localTransfo (r.loc k) (cropTiles im 480 640)) := by
  refine ⟨?_, rfl⟩
  simp [dinoCall]
  omega

/-- Claim C5, counterexample: the first global branch does NOT always attempt
the blur — at blur draw 0.3 its gate is false and the frame list passes
through the blur stage unchanged. -/
theorem claimC5_counterexample :
    transfo1BlurDoIt (3/10) = false
  ∧ gaussianBlurList (transfo1BlurDoIt (3/10)) [wFrame] = [wFrame] := by
  have h : transfo1BlurDoIt (3/10) = false := by
    simp only [transfo1BlurDoIt, decide_eq_false_iff_not]
    norm_num
  refine ⟨h, ?_⟩
  rw [h]
  rfl

/-- Claim C5, amended: the first global branch attempts blur exactly when its
independent draw is ≥ 0.5 (the same gate as the local branches, NOT always)
and never solarizes; the second global branch attempts blur exactly when its
draw is ≥ 0.1 and solarization exactly when a separate draw is ≥ 0.2; local
branches attempt blur exactly when their draw is ≥ 0.5 and never solarize —
the skip-below-threshold polarity is exact. -/
theorem claimC5_gates (p u : ℚ) (r : BranchRand) (ims : List Img) :
    (transfo1BlurDoIt p = true ↔ (1 : ℚ)/2 ≤ p)
  ∧ (transfo2BlurDoIt p = true ↔ (1 : ℚ)/10 ≤ p)
  ∧ (transfo2SolarDoIt p = true ↔ (2 : ℚ)/10 ≤ p)
  ∧ (localBlurDoIt p = true ↔ (1 : ℚ)/2 ≤ p)
  ∧ gaussianBlurList false ims = ims
  ∧ gaussianBlurList true ims = ims.map gaussianBlurImg
  ∧ solarizeList false ims = ims
  ∧ solarizeList true ims = ims.map solarizeImg
  ∧ transfo1 { r with solarU := u } ims = transfo1 r ims
  ∧ localTransfo { r with solarU := u } ims = localTransfo r ims
  ∧ framesPIL2 r ims = solarizeList (transfo2SolarDoIt r.solarU)
      (gaussianBlurList (transfo2BlurDoIt r.blurU) (jitteredOf 224 r ims)) := by
  refine ⟨?_, ?_, ?_, ?_, rfl, rfl, rfl, rfl, rfl, rfl, rfl⟩ <;>
    simp [transfo1BlurDoIt, transfo2BlurDoIt, transfo2SolarDoIt, localBlurDoIt]

/-- Claim C6, counterexample: the saturation argument of the branch
`ColorJitter` is 0.2, so its sampling interval is [0.8, 1.2], not the claimed
[0.6, 1.4]; even the maximal draw yields factor 1.2. -/
theorem claimC6_counterexample :
    factorInterval jitterSaturationArg = (8/10, 12/10)
  ∧ factorInterval jitterSaturationArg ≠ (6/10, 14/10)
  ∧ (colorJitterGetParams ⟨[0, 1, 2, 3], 1, 1, 1, 1⟩).saturation = 12/10 := by
  have hint : factorInterval jitterSaturationArg = (8/10, 12/10) := by
    simp only [factorInterval, jitterSaturationArg, Prod.mk.injEq]
    constructor
    · rw [max_eq_right (by norm_num)]
      norm_num
    · norm_num
  refine ⟨hint, ?_, ?_⟩
  · rw [hint]
    simp only [Prod.mk.injEq, ne_eq, not_and]
    intro h
    norm_num at h
  · simp only [colorJitterGetParams, uniformIn, hint]
    norm_num

theorem uniformIn_bounds (lo hi u : ℚ) (hlh : lo ≤ hi) (h0 : 0 ≤ u) (h1 : u ≤ 1) :
    lo ≤ uniformIn lo hi u ∧ uniformIn lo hi u ≤ hi := by
  unfold uniformIn
  constructor
  · nlinarith
  · nlinarith

/-- Claim C6, amended: each branch samples one operation order and one factor
per jitter operation — brightness and contrast from [0.6, 1.4], saturation
from [0.8, 1.2] (the constructor argument is 0.2, not 0.4), hue from
[-0.1, 0.1] — and applies the four operations with the same order and factors
to every frame of the branch. -/
theorem claimC6_jitter (d : JitterDraw) (r : BranchRand) (ims : List Img) (i : Nat)
    (hb0 : 0 ≤ d.ub) (hb1 : d.ub ≤ 1) (hc0 : 0 ≤ d.uc) (hc1 : d.uc ≤ 1)
    (hs0 : 0 ≤ d.us) (hs1 : d.us ≤ 1) (hh0 : 0 ≤ d.uh) (hh1 : d.uh ≤ 1) :
    (6/10 ≤ (colorJitterGetParams d).brightness ∧ (colorJitterGetParams d).brightness ≤ 14/10)
  ∧ (6/10 ≤ (colorJitterGetParams d).contrast ∧ (colorJitterGetParams d).contrast ≤ 14/10)
  ∧ (8/10 ≤ (colorJitterGetParams d).saturation ∧ (colorJitterGetParams d).saturation ≤ 12/10)
  ∧ (-(1/10) ≤ (colorJitterGetParams d).hue ∧ (colorJitterGetParams d).hue ≤ 1/10)
  ∧ (colorJitterGetParams d).fnIdx = d.perm
  ∧ jitteredOf 224 r ims
      = (flippedOf 224 r ims).map (applyColorJitter (colorJitterGetParams r.jitter))
  ∧ jitteredOf 96 r ims
      = (flippedOf 96 r ims).map (applyColorJitter (colorJitterGetParams r.jitter))
  ∧ (i < ims.length →
      (jitteredOf 224 r ims).getD i dfltImg
        = applyColorJitter (colorJitterGetParams r.jitter)
            ((flippedOf 224 r ims).getD i dfltImg)) := by
  have hbi : factorInterval jitterBrightnessArg = (6/10, 14/10) := by
    simp only [factorInterval, jitterBrightnessArg, Prod.mk.injEq]
    constructor
    · rw [max_eq_right (by norm_num)]
      norm_num
    · norm_num
  have hci : factorInterval jitterContrastArg = (6/10, 14/10) := by
    simp only [factorInterval, jitterContrastArg, Prod.mk.injEq]
    constructor
    · rw [max_eq_right (by norm_num)]
      norm_num
    · norm_num
  have hsi : factorInterval jitterSaturationArg = (8/10, 12/10) := by
    simp only [factorInterval, jitterSaturationArg, Prod.mk.injEq]
    constructor
    · rw [max_eq_right (by norm_num)]
      norm_num
    · norm_num
  have hhi : hueInterval jitterHueArg = (-(1/10), 1/10) := by
    simp only [hueInterval, jitterHueArg, Prod.mk.injEq]
  refine ⟨?_, ?_, ?_, ?_, rfl, rfl, rfl, ?_⟩
  · simpa [colorJitterGetParams, hbi]
      using uniformIn_bounds (6/10) (14/10) d.ub (by norm_num) hb0 hb1
  · simpa [colorJitterGetParams, hci]
      using uniformIn_bounds (6/10) (14/10) d.uc (by norm_num) hc0 hc1
  · simpa [colorJitterGetParams, hsi]
      using uniformIn_bounds (8/10) (12/10) d.us (by norm_num) hs0 hs1
  · simpa [colorJitterGetParams, hhi]
      using uniformIn_bounds (-(1/10)) (1/10) d.uh (by norm_num) hh0 hh1
  · intro hi
    simp only [jitteredOf]
    exact getD_map_of_lt _ _ _ (by simpa using hi) dfltImg dfltImg

/-- Claim C6, witness at a concrete draw. -/
theorem claimC6_witness :
    (6/10 ≤ (colorJitterGetParams ⟨[0, 1, 2, 3], 1/2, 1/2, 1/2, 1/2⟩).brightness
      ∧ (colorJitterGetParams ⟨[0, 1, 2, 3], 1/2, 1/2, 1/2, 1/2⟩).brightness ≤ 14/10)
  ∧ (8/10 ≤ (colorJitterGetParams ⟨[0, 1, 2, 3], 1/2, 1/2, 1/2, 1/2⟩).saturation
      ∧ (colorJitterGetParams ⟨[0, 1, 2, 3], 1/2, 1/2, 1/2, 1/2⟩).saturation ≤ 12/10) := by
  have h := claimC6_jitter ⟨[0, 1, 2, 3], 1/2, 1/2, 1/2, 1/2⟩ wRand [wFrame] 0
    (by norm_num) (by norm_num) (by norm_num) (by norm_num)
    (by norm_num) (by norm_num) (by norm_num) (by norm_num)
  exact ⟨h.1, h.2.2.1⟩

theorem pyRange0_length (stop step : Nat) :
    (pyRange0 stop step).length = (stop + step - 1) / step := by
  simp [pyRange0]

theorem pyRange0_getD (stop step k : Nat) (h : k < (stop + step - 1) / step) :
    (pyRange0 stop step).getD k 0 = k * step := by
  simp only [pyRange0]
  rw [getD_map_of_lt _ _ _ (by simpa using h) 0 0]
  congr 1
  rw [List.getD_eq_getElem?_getD, List.getElem?_range h]
  rfl

theorem flatMap_map_getD {α β γ : Type} (l1 : List α) (l2 : List β) (f : α → β → γ)
    (i j : Nat) (da : α) (db : β) (dc : γ)
    (hi : i < l1.length) (hj : j < l2.length) :
    (l1.flatMap (fun a => l2.map (f a))).getD (i * l2.length + j) dc
      = f (l1.getD i da) (l2.getD j db) := by
  induction l1 generalizing i with
  | nil => simp at hi
  | cons a t ih =>
    cases i with
    | zero =>
      simp only [List.flatMap_cons, Nat.zero_mul, Nat.zero_add, List.getD_cons_zero]
      rw [List.getD_append _ _ _ _ (by simpa using hj)]
      rw [getD_map_of_lt _ _ _ hj db dc]
    | succ q =>
      simp only [List.flatMap_cons]
      have hsucc : (q + 1) * l2.length + j = (l2.map (f a)).length + (q * l2.length + j) := by
        rw [List.length_map]
        ring
      rw [hsucc, List.getD_append_right _ _ _ _ (Nat.le_add_right _ _)]
      simp only [Nat.add_sub_cancel_left]
      simpa using ih q (by simpa using hi)

theorem cropTiles_getD (im : Img) (bi bj : Nat)
    (hbi : bi < (im.h + 479) / 480) (hbj : bj < (im.w + 639) / 640) :
    (cropTiles im 480 640).getD (bi * ((im.w + 639) / 640) + bj) dfltImg
      = pilCrop im (bj * 640) (bi * 480) (bj * 640 + 640) (bi * 480 + 480) := by
  unfold cropTiles
  have h1 : (pyRange0 im.w 640).length = (im.w + 639) / 640 := pyRange0_length im.w 640
  rw [← h1]
  rw [flatMap_map_getD _ _ _ bi bj 0 0 dfltImg
    (by rw [pyRange0_length]; exact hbi) (by rw [h1]; exact hbj)]
  rw [pyRange0_getD _ _ _ hbi, pyRange0_getD _ _ _ hbj]

theorem length_flatMap_const {α β : Type} (l : List α) (g : α → List β) (c : Nat)
    (hg : ∀ a, (g a).length = c) : (l.flatMap g).length = l.length * c := by
  induction l with
  | nil => simp
  | cons a t ih =>
    rw [List.flatMap_cons, List.length_append, ih, hg a, List.length_cons]
    ring

theorem cropTiles_length (im : Img) :
    (cropTiles im 480 640).length = ((im.h + 479) / 480) * ((im.w + 639) / 640) := by
  rw [cropTiles, length_flatMap_const _ _ ((im.w + 639) / 640)
    (fun a => by rw [List.length_map, pyRange0_length]; omega), pyRange0_length]
  have he : im.h + 480 - 1 = im.h + 479 := by omega
  rw [he]

/-- Claim C8: a 1920×640 composite splits into exactly 4 tiles of 480×640,
each pixel-equal to the corresponding fixed sub-region of the composite, in
row-major order and with no resizing. -/
theorem claimC8_frame_split (im : Img) (k rr cc : Nat)
    (hh : im.h = 1920) (hw : im.w = 640) :
    (cropTiles im 480 640).length = 4
  ∧ (k < 4 → ((cropTiles im 480 640).getD k dfltImg).h = 480
        ∧ ((cropTiles im 480 640).getD k dfltImg).w = 640)
  ∧ (k < 4 → rr < 480 → cc < 640 →
        ((cropTiles im 480 640).getD k dfltImg).pix rr cc = im.pix (480 * k + rr) cc) := by
  have hrows : (im.h + 479) / 480 = 4 := by rw [hh]
  have hcols : (im.w + 639) / 640 = 1 := by rw [hw]
  have hlen : (cropTiles im 480 640).length = 4 := by
    rw [cropTiles_length, hrows, hcols]
  have hget : ∀ k, k < 4 → (cropTiles im 480 640).getD k dfltImg
      = pilCrop im 0 (k * 480) 640 (k * 480 + 480) := by
    intro k hk
    have := cropTiles_getD im k 0 (by omega) (by omega)
    rw [hcols] at this
    simpa using this
  refine ⟨hlen, ?_, ?_⟩
  · intro hk
    rw [hget k hk]
    constructor
    · show k * 480 + 480 - k * 480 = 480
      omega
    · rfl
  · intro hk hr hc
    rw [hget k hk]
    show (if k * 480 + rr < im.h ∧ 0 + cc < im.w ∧ rr < k * 480 + 480 - (k * 480) ∧ cc < 640 - 0
      then im.pix (k * 480 + rr) (0 + cc) else blackPix) = im.pix (480 * k + rr) cc
    rw [if_pos (by omega)]
    have h1 : k * 480 + rr = 480 * k + rr := by ring
    have h2 : 0 + cc = cc := by omega
    rw [h1, h2]

/-- Claim C8, witness at a concrete 1920×640 composite. -/
theorem claimC8_witness :
    (cropTiles wImg1920 480 640).length = 4
  ∧ ((cropTiles wImg1920 480 640).getD 3 dfltImg).pix 5 4
      = wImg1920.pix (480 * 3 + 5) 4 := by
  have h := claimC8_frame_split wImg1920 3 5 4 rfl rfl
  exact ⟨h.1, h.2.2 (by decide) (by decide) (by decide)⟩

/-- Claim C9, counterexample: for a 500×640 composite (height not a multiple
of 480) the splitter yields 2 row tiles, not the ⌊500/480⌋ = 1 tiles that
"trailing partial tiles are silently dropped" would give; the trailing tile is
KEPT, zero-padded below the original image (row 40 of tile 1 is past row 499
and reads black, while row 10 still carries image content). -/
theorem claimC9_counterexample :
    (cropTiles wImg500 480 640).length = 2
  ∧ (cropTiles wImg500 480 640).length ≠ 500 / 480 * (640 / 640)
  ∧ ((cropTiles wImg500 480 640).getD 1 dfltImg).pix 40 0 = blackPix
  ∧ ((cropTiles wImg500 480 640).getD 1 dfltImg).pix 10 0 = ⟨1, 1, 1⟩ := by
  refine ⟨by decide, by decide, by decide, by decide⟩

/-- Claim C9, amended: frame splitting never fails — a composite of any
positive size yields a nonempty tile list and all `2 + N` views are still
produced; a size different from (640, 1920) only sets the logged error flag;
when the dimensions are not exact multiples of 480×640, the splitter yields
⌈h/480⌉ × ⌈w/640⌉ tiles and the trailing partial tiles are kept as full-size
tiles zero-padded outside the original image, rather than dropped. -/
theorem claimC9_split_error_handling (im : Img) (n : Nat) (r : CallRand) (bi bj rr cc : Nat)
    (hh : 1 ≤ im.h) (hw : 1 ≤ im.w) :
    (dinoCall n r im).crops.length = 2 + n
  ∧ ((dinoCall n r im).errored = true ↔ ¬(im.w = 640 ∧ im.h = 1920))
  ∧ cropTiles im 480 640 ≠ []
  ∧ (cropTiles im 480 640).length = ((im.h + 479) / 480) * ((im.w + 639) / 640)
  ∧ (bi < (im.h + 479) / 480 → bj < (im.w + 639) / 640 → rr < 480 → cc < 640 →
      ((cropTiles im 480 640).getD (bi * ((im.w + 639) / 640) + bj) dfltImg).pix rr cc
        = if 480 * bi + rr < im.h ∧ 640 * bj + cc < im.w
          then im.pix (480 * bi + rr) (640 * bj + cc) else blackPix) := by
  refine ⟨?_, ?_, ?_, cropTiles_length im, ?_⟩
  · simp [dinoCall]
    omega
  · simp only [dinoCall, Bool.not_eq_true', Bool.and_eq_false_iff]
    constructor
    · intro h hcon
      rcases h with h | h <;> simp [hcon.1, hcon.2] at h
    · intro h
      by_cases h6 : im.w = 640
      · right
        simp only [decide_eq_false_iff_not]
        intro h19
        exact h ⟨h6, h19⟩
      · left
        simp [h6]
  · intro hnil
    have := cropTiles_length im
    rw [hnil] at this
    simp at this
    rcases this with h | h <;> omega
  · intro hbi hbj hr hc
    rw [cropTiles_getD im bi bj hbi hbj]
    show (if bi * 480 + rr < im.h ∧ bj * 640 + cc < im.w ∧
        rr < bi * 480 + 480 - (bi * 480) ∧ cc < bj * 640 + 640 - (bj * 640)
      then im.pix (bi * 480 + rr) (bj * 640 + cc) else blackPix) = _
    have e1 : bi * 480 = 480 * bi := by ring
    have e2 : bj * 640 = 640 * bj := by ring
    by_cases hin : 480 * bi + rr < im.h ∧ 640 * bj + cc < im.w
    · rw [if_pos (by constructor
                     · omega
                     constructor
                     · omega
                     constructor <;> omega), if_pos hin]
      rw [e1, e2]
    · rw [if_neg (by rw [e1, e2]; tauto), if_neg hin]

/-- Claim C9, witness at the concrete 500×640 composite. -/
theorem claimC9_witness :
    (dinoCall 1 wCallRand wImg500).crops.length = 2 + 1
  ∧ ((cropTiles wImg500 480 640).getD (1 * ((wImg500.w + 639) / 640) + 0) dfltImg).pix 40 0
      = (if 480 * 1 + 40 < wImg500.h ∧ 640 * 0 + 0 < wImg500.w
          then wImg500.pix (480 * 1 + 40) (640 * 0 + 0) else blackPix) := by
  have h := claimC9_split_error_handling wImg500 1 wCallRand 1 0 40 0 (by decide) (by decide)
  exact ⟨h.1, h.2.2.2.2 (by decide) (by decide) (by decide) (by decide)⟩

theorem chunksOfAux_spec {α : Type} (k : Nat) (hk : 0 < k) :
    ∀ (m : Nat) (l : List α) (fuel : Nat), l.length = m * k → l.length ≤ fuel →
      (chunksOfAux k fuel l).length = m ∧ ∀ c ∈ chunksOfAux k fuel l, c.length = k := by
  intro m
  induction m with
  | zero =>
    intro l fuel hl _
    have hnil : l = [] := List.eq_nil_of_length_eq_zero (by simpa using hl)
    subst hnil
    cases fuel <;> simp [chunksOfAux]
  | succ mm ih =>
    intro l fuel hl hf
    have hlen : l.length = mm * k + k := by rw [hl]; ring
    cases fuel with
    | zero => omega
    | succ fu =>
      cases l with
      | nil => simp at hlen; omega
      | cons a t =>
        simp only [chunksOfAux]
        have hdrop : ((a :: t).drop k).length = mm * k := by
          rw [List.length_drop]
          omega
        have hfu : ((a :: t).drop k).length ≤ fu := by
          rw [List.length_drop]
          omega
        obtain ⟨ih1, ih2⟩ := ih _ fu hdrop hfu
        constructor
        · simp [ih1]
        · intro c hc
          rcases List.mem_cons.1 hc with rfl | hc
          · rw [List.length_take]
            omega
          · exact ih2 c hc

theorem torchChunk_spec {α : Type} (n B : Nat) (l : List α) (hn : 1 ≤ n) (hB : 1 ≤ B)
    (hl : l.length = n * B) :
    (torchChunk n l).length = n ∧ ∀ c ∈ torchChunk n l, c.length = B := by
  have hk : (l.length + n - 1) / n = B := by
    rw [hl]
    have h2 : n * B + n - 1 = (n - 1) + n * B := by omega
    rw [h2, Nat.add_mul_div_left _ _ (show 0 < n by omega), Nat.div_eq_of_lt (by omega)]
    omega
  unfold torchChunk chunksOf
  rw [hk, if_neg (by omega)]
  exact chunksOfAux_spec B (by omega) n l l.length (by rw [hl]) (Nat.le_refl _)

theorem filter_ne_length (n iq : Nat) (h : iq < n) :
    ((List.range n).filter (fun v => !(v == iq))).length = n - 1 := by
  induction n with
  | zero => omega
  | succ m ih =>
    rw [List.range_succ, List.filter_append]
    by_cases hiq : iq = m
    · subst hiq
      have h1 : (List.range iq).filter (fun v => !(v == iq)) = List.range iq := by
        apply List.filter_eq_self.2
        intro a ha
        simp only [List.mem_range] at ha
        simp
        omega
      rw [h1]
      simp
    · have hlt : iq < m := by omega
      rw [List.length_append, ih hlt]
      have h2 : [m].filter (fun v => !(v == iq)) = [m] := by
        have hb : (!(m == iq)) = true := by
          simp
          omega
        simp [List.filter_cons, hb]
      rw [h2]
      simp
      omega

theorem lossPairs_length (nS : Nat) (h2 : 2 ≤ nS) :
    (lossPairs 2 nS).length = 2 * nS - 2 := by
  have hr2 : List.range 2 = [0, 1] := rfl
  simp only [lossPairs, hr2, List.flatMap_cons, List.flatMap_nil, List.append_nil,
    List.length_append, List.length_map]
  rw [filter_ne_length nS 0 (by omega), filter_ne_length nS 1 (by omega)]
  omega

theorem sum_map_filter_ne (iq : Nat) (g : Nat → ℚ) (l : List Nat) :
    ((l.filter (fun v => !(v == iq))).map g).sum
      = (l.map (fun v => if v = iq then 0 else g v)).sum := by
  induction l with
  | nil => rfl
  | cons a t ih =>
    by_cases ha : a = iq
    · subst ha
      simp [List.filter_cons, ih]
    · simp [List.filter_cons, ha, ih]

theorem lossPairs_sum (nS : Nat) (F : Nat × Nat → ℚ) :
    ((lossPairs 2 nS).map F).sum
      = ((List.range 2).map (fun iq =>
          ((List.range nS).map (fun v => if v = iq then 0 else F (iq, v))).sum)).sum := by
  have hr2 : List.range 2 = [0, 1] := rfl
  simp only [lossPairs, hr2, List.flatMap_cons, List.flatMap_nil, List.append_nil,
    List.map_append, List.sum_append, List.map_cons, List.map_nil, List.sum_cons,
    List.sum_nil, List.map_map]
  rw [show (F ∘ (fun v : Nat => (0, v))) = (fun v => F (0, v)) from rfl]
  rw [show (F ∘ (fun v : Nat => (1, v))) = (fun v => F (1, v)) from rfl]
  rw [sum_map_filter_ne 0 (fun v => F (0, v)) (List.range nS),
      sum_map_filter_ne 1 (fun v => F (1, v)) (List.range nS)]
  ring

/-- Claim C7, counterexample: at `ncrops = 1` (one student chunk, two teacher
chunks) `DINOLoss.forward` accumulates 1 loss term — the pair (teacher 1,
student 0) — not `2 × 1 − 2 = 0`, so the pair-count formula does not hold for
every `ncrops ≥ 1`. -/
theorem claimC7_counterexample :
    dinoLossTermCount 1 [[(0 : ℚ)]] [[0], [0]] = 1 ∧ (1 : Nat) ≠ 2 * 1 - 2 :=
  ⟨by decide, by decide⟩

/-- Claim C7, amended: for every `ncrops ≥ 2` (as in training, where
`ncrops = local_crops_number + 2`) and batch size `B ≥ 1`, `DINOLoss.forward`
splits the student rows, scaled by `1/0.1`, into exactly `ncrops` chunks of
`B` rows, splits the centred, temperature-sharpened teacher softmax into
exactly 2 chunks, accumulates `2 × ncrops − 2` loss terms (all index-distinct
pairs), and returns the per-pair batch-mean cross-entropy summed over pairs
and divided by the number of terms. -/
theorem claimC7_loss_pairs (ex lg : ℚ → ℚ) (ncrops B : Nat) (center : List ℚ) (temp : ℚ)
    (student teacher : List (List ℚ))
    (hn : 2 ≤ ncrops) (hB : 1 ≤ B)
    (hs : student.length = ncrops * B) (ht : teacher.length = 2 * B) :
    (torchChunk ncrops (student.map (fun row => row.map (fun x => x / studentTempVal)))).length
        = ncrops
  ∧ (∀ c ∈ torchChunk ncrops (student.map (fun row => row.map (fun x => x / studentTempVal))),
        c.length = B)
  ∧ (torchChunk 2 (teacher.map (fun row =>
        softmaxRow ex (row.zipWith (fun t c => (t - c) / temp) center)))).length = 2
  ∧ dinoLossTermCount ncrops student teacher = 2 * ncrops - 2
  ∧ dinoLossForward ex lg ncrops center temp student teacher
      = specDinoLoss ex lg ncrops center temp student teacher := by
  have hs2 : (student.map (fun row => row.map (fun x => x / studentTempVal))).length
      = ncrops * B := by simpa using hs
  have ht2 : (teacher.map (fun row =>
      softmaxRow ex (row.zipWith (fun t c => (t - c) / temp) center))).length = 2 * B := by
    simpa using ht
  obtain ⟨hS, hSc⟩ := torchChunk_spec ncrops B _ (by omega) hB hs2
  obtain ⟨hT, hTc⟩ := torchChunk_spec 2 B _ (by omega) hB ht2
  obtain ⟨hSr, hSr2⟩ := torchChunk_spec ncrops B student (by omega) hB hs
  obtain ⟨hTr, hTr2⟩ := torchChunk_spec 2 B teacher (by omega) hB ht
  have hcount : dinoLossTermCount ncrops student teacher = 2 * ncrops - 2 := by
    unfold dinoLossTermCount
    rw [hTr, hSr, lossPairs_length ncrops hn]
  refine ⟨hS, hSc, hT, hcount, ?_⟩
  unfold dinoLossForward specDinoLoss
  simp only []
  rw [hT, hS, lossPairs_length ncrops hn, lossPairs_sum ncrops]

/-- Claim C7, witness at `ncrops = 2`, batch 1. -/
theorem claimC7_witness :
    dinoLossTermCount 2 [[(0 : ℚ)], [0]] [[0], [0]] = 2 * 2 - 2 :=
  (claimC7_loss_pairs id id 2 1 [0] 1 [[0], [0]] [[0], [0]]
    (by omega) (by omega) (by decide) (by decide)).2.2.2.1

theorem storeGet_append_self (s : Store) (v : List Img) :
    storeGet (s ++ [v]) s.length = v := by
  simp [storeGet, List.getD_eq_getElem?_getD, List.getElem?_append_right (Nat.le_refl _)]

theorem storeGet_append_lt (s : Store) (v : List Img) (i : Nat) (h : i < s.length) :
    storeGet (s ++ [v]) i = storeGet s i := by
  simp [storeGet, List.getD_eq_getElem?_getD, List.getElem?_append_left h]

theorem storeGet_set_self (s : Store) (i : Nat) (v : List Img) (h : i < s.length) :
    storeGet (storeSet s i v) i = v := by
  simp [storeGet, storeSet, List.getD_eq_getElem?_getD, List.getElem?_set_eq_of_lt v h]

theorem storeGet_set_ne (s : Store) (i j : Nat) (v : List Img) (h : j ≠ i) :
    storeGet (storeSet s j v) i = storeGet s i := by
  simp [storeGet, storeSet, List.getD_eq_getElem?_getD, List.getElem?_set_ne h]

theorem storeSet_length (s : Store) (i : Nat) (v : List Img) :
    (storeSet s i v).length = s.length := by
  simp [storeSet]

theorem storeGet_append_len_eq (s : Store) (v : List Img) (i : Nat) (hi : i = s.length) :
    storeGet (s ++ [v]) i = v := by
  subst hi
  exact storeGet_append_self s v

theorem transfo1St_spec (r : BranchRand) (lid : Nat) (st : Store) (h : lid < st.length) :
    (transfo1St r lid st).1 = transfo1 r (storeGet st lid)
  ∧ storeGet (transfo1St r lid st).2 lid = storeGet st lid
  ∧ (transfo1St r lid st).2.length = st.length + 2 := by
  have hne : st.length ≠ lid := by omega
  have hlid1 : lid < st.length + 1 := by omega
  have hself : st.length < st.length + 1 := by omega
  by_cases h1 : r.hflipU > 1/2 <;> by_cases h2 : r.vflipU > 1/2 <;>
    refine ⟨?_, ?_, ?_⟩ <;>
      simp only [transfo1St, transfo1, h1, h2, if_true, if_false,
        storeGet_append_self, storeGet_append_lt, storeGet_set_self, storeGet_set_ne,
        storeGet_append_len_eq, storeSet_length, List.length_append, List.length_cons,
        List.length_nil, hne, hlid1, hself, h, Nat.add_zero, Nat.zero_add, ne_eq,
        not_false_eq_true]

theorem transfo2St_spec (r : BranchRand) (lid : Nat) (st : Store) (h : lid < st.length) :
    (transfo2St r lid st).1 = transfo2 r (storeGet st lid)
  ∧ storeGet (transfo2St r lid st).2 lid = storeGet st lid
  ∧ (transfo2St r lid st).2.length = st.length + 3 := by
  have hne : st.length ≠ lid := by omega
  have hlid1 : lid < st.length + 1 := by omega
  have hlid2 : lid < st.length + 1 + 1 := by omega
  have hself : st.length < st.length + 1 := by omega
  by_cases h1 : r.hflipU > 1/2 <;> by_cases h2 : r.vflipU > 1/2 <;>
    refine ⟨?_, ?_, ?_⟩ <;>
      simp only [transfo2St, transfo2, h1, h2, if_true, if_false,
        storeGet_append_self, storeGet_append_lt, storeGet_set_self, storeGet_set_ne,
        storeGet_append_len_eq, storeSet_length, List.length_append, List.length_cons,
        List.length_nil, hne, hlid1, hlid2, hself, h, Nat.add_zero, Nat.zero_add, ne_eq,
        not_false_eq_true]

theorem localTransfoSt_spec (r : BranchRand) (lid : Nat) (st : Store) (h : lid < st.length) :
    (localTransfoSt r lid st).1 = localTransfo r (storeGet st lid)
  ∧ storeGet (localTransfoSt r lid st).2 lid = storeGet st lid
  ∧ (localTransfoSt r lid st).2.length = st.length + 2 := by
  have hne : st.length ≠ lid := by omega
  have hlid1 : lid < st.length + 1 := by omega
  have hself : st.length < st.length + 1 := by omega
  by_cases h1 : r.hflipU > 1/2 <;> by_cases h2 : r.vflipU > 1/2 <;>
    refine ⟨?_, ?_, ?_⟩ <;>
      simp only [localTransfoSt, localTransfo, h1, h2, if_true, if_false,
        storeGet_append_self, storeGet_append_lt, storeGet_set_self, storeGet_set_ne,
        storeGet_append_len_eq, storeSet_length, List.length_append, List.length_cons,
        List.length_nil, hne, hlid1, hself, h, Nat.add_zero, Nat.zero_add, ne_eq,
        not_false_eq_true]

theorem localLoopAux_spec (r : CallRand) (tid : Nat) :
    ∀ (ks : List Nat) (st : Store), tid < st.length →
      (localLoopAux r tid ks st).1
          = ks.map (fun k => localTransfo (r.loc k) (storeGet st tid))
    ∧ storeGet (localLoopAux r tid ks st).2 tid = storeGet st tid := by
  intro ks
  induction ks with
  | nil =>
    intro st h
    exact ⟨rfl, rfl⟩
  | cons k t ih =>
    intro st h
    obtain ⟨l1, l2, l3⟩ := localTransfoSt_spec (r.loc k) tid st h
    have h2 : tid < (localTransfoSt (r.loc k) tid st).2.length := by omega
    obtain ⟨i1, i2⟩ := ih (localTransfoSt (r.loc k) tid st).2 h2
    simp only [localLoopAux]
    constructor
    · simp only [List.map_cons]
      rw [i1, l1, l2]
    · rw [i2, l2]

theorem dinoCallSt_spec (n : Nat) (r : CallRand) (image : Img) (st : Store) :
    (dinoCallSt n r image st).1 = dinoCall n r image := by
  unfold dinoCallSt dinoCall
  simp only []
  have h0 : st.length < (st ++ [cropTiles image 480 640]).length := by simp
  obtain ⟨a1, a2, a3⟩ := transfo1St_spec r.g1 st.length (st ++ [cropTiles image 480 640]) h0
  rw [storeGet_append_self] at a1 a2
  have h1 : st.length < (transfo1St r.g1 st.length (st ++ [cropTiles image 480 640])).2.length := by
    rw [a3]
    simp
    omega
  obtain ⟨b1, b2, b3⟩ := transfo2St_spec r.g2 st.length _ h1
  rw [a2] at b1 b2
  have h2 : st.length
      < (transfo2St r.g2 st.length
          (transfo1St r.g1 st.length (st ++ [cropTiles image 480 640])).2).2.length := by
    rw [b3]
    omega
  obtain ⟨c1, c2⟩ := localLoopAux_spec r st.length (List.range n) _ h2
  rw [b2] at c1
  rw [a1, b1, c1]

/-- Claim C10: every branch transform works on a shallow copy of the caller's
frame list and rebinds only the copy's slots — the caller's list object,
its length and element bindings, is unchanged by each of the three
store-level branch transforms, each branch's result equals the pure transform
of the caller's original list, and the full store-level `__call__` produces
exactly the pure result, i.e. all `2 + N` branch invocations read the
identical original tile list. -/
theorem claimC10_frame_list_preserved (r : BranchRand) (cr : CallRand) (n lid : Nat)
    (st : Store) (image : Img) (h : lid < st.length) :
    storeGet (transfo1St r lid st).2 lid = storeGet st lid
  ∧ (transfo1St r lid st).1 = transfo1 r (storeGet st lid)
  ∧ storeGet (transfo2St r lid st).2 lid = storeGet st lid
  ∧ (transfo2St r lid st).1 = transfo2 r (storeGet st lid)
  ∧ storeGet (localTransfoSt r lid st).2 lid = storeGet st lid
  ∧ (localTransfoSt r lid st).1 = localTransfo r (storeGet st lid)
  ∧ (dinoCallSt n cr image st).1 = dinoCall n cr image := by
  obtain ⟨a1, a2, _⟩ := transfo1St_spec r lid st h
  obtain ⟨b1, b2, _⟩ := transfo2St_spec r lid st h
  obtain ⟨c1, c2, _⟩ := localTransfoSt_spec r lid st h
  exact ⟨a2, a1, b2, b1, c2, c1, dinoCallSt_spec n cr image st⟩

/-- Claim C10, witness at a concrete one-entry store. -/
theorem claimC10_witness :
    storeGet (transfo1St wRand 0 [[wFrame]]).2 0 = storeGet [[wFrame]] 0
  ∧ (dinoCallSt 1 wCallRand wImg500 [[wFrame]]).1 = dinoCall 1 wCallRand wImg500 := by
  have h := claimC10_frame_list_preserved wRand wCallRand 1 0 [[wFrame]] wImg500 (by decide)
  exact ⟨h.1, h.2.2.2.2.2.2⟩
